import Mathlib

/-!
# Verification of the reactive cascade-resolution engine

This file is a shallow embedding, in Lean 4, of the reactive signal /
computation graph and the style-flattening algorithm of the
`react-native-css-interop` runtime
(`src/runtime/signals` section of `native/variables.ts`,
`flattenStyle` / `extractValue` of the same file, and the
CSS-variable signal chain of `css-interop.native.ts`), together with
proofs about the embedded definitions.

Modelling conventions:
* JavaScript numbers are modelled as `Int` (reactive values) or `ℚ`
  (style values); `undefined` is modelled with `Option`.
* The mutable object graph of signals and computations is modelled as an
  explicit `World`: a list of `Node`s addressed by their index, plus the
  global tracking stack `context` and ghost instrumentation (logs of
  stale pulses, executions and deferred callback deliveries).
* Tracked functions (`fn` of a computation) are modelled as expression
  trees (`Expr`) whose `read` leaves perform the `Signal.get()` call,
  so dependency tracking happens exactly as in the source.
* The mutually recursive propagation (`set` → `stale` → `execute` →
  `set` …) is modelled with an explicit fuel parameter; `none` means
  the fuel ran out (the source recursion is unbounded).
* JavaScript `Set` iteration is modelled over a snapshot of the
  subscriber list taken when the loop starts.  A computation that is
  deleted and re-added during the loop would be revisited by a live
  `Set` iterator, but such a revisit always hits the
  `if (!this.waiting && change < 0) return` guard, so the snapshot
  model agrees with the live iterator on the behaviours studied here.
-/

/-- Tracked functions are modelled as expression trees over the signal
graph: `read i` performs `get()` on node `i` (registering a dependency
when a computation is running), `cond` gives value-dependent (dynamic)
dependencies, mirroring arbitrary JavaScript in `fn`. -/
inductive Expr where
  | lit (n : Int)
  | read (id : Nat)
  | add (a b : Expr)
  | cond (c t e : Expr)
deriving DecidableEq, Repr

/-- One cell of the reactive graph.  A plain signal (`createSignal`)
uses `value`, `subsC` (computation subscribers) and `subsF` (plain
callback subscribers, kept separately because every loop in the source
filters by `typeof subscriber`).  A computation (`createComputation`)
additionally uses `fn`, `waiting`, `fresh` and `dependencies` (`deps`,
stored as the indices of the signals whose subscription set was added
to `dependencies`, since each subscription set belongs to exactly one
signal).  `execCount` is ghost instrumentation counting `execute()`
calls. -/
structure Node where
  value : Option Int := none
  subsC : List Nat := []
  subsF : List Nat := []
  isComp : Bool := false
  fn : Expr := Expr.lit 0
  waiting : Int := 0
  fresh : Bool := false
  deps : List Nat := []
  execCount : Nat := 0
deriving DecidableEq, Repr

/-- The whole reactive state: the node heap, the global tracking stack
`context` (top = last element, as in `context[context.length - 1]`),
the queue of signals whose `setImmediate` callback-delivery is pending,
and ghost logs: every `stale` pulse delivered to a computation
subscriber, every `execute` (with the value it produced), and every
deferred plain-callback invocation (with the delivered value). -/
structure World where
  nodes : List Node := []
  ctx : List Nat := []
  pendingFlush : List Nat := []
  staleLog : List (Nat × Int × Bool) := []
  execLog : List (Nat × Option Int) := []
  callbackLog : List (Nat × Option Int) := []
deriving DecidableEq, Repr

def World.node (w : World) (i : Nat) : Node := w.nodes.getD i {}

def World.setNode (w : World) (i : Nat) (n : Node) : World :=
  { w with nodes := w.nodes.set i n }

def World.modifyNode (w : World) (i : Nat) (f : Node → Node) : World :=
  w.setNode i (f (w.node i))

/-- `Set.add`: append if absent (JavaScript `Set`s keep insertion
order and ignore re-additions). -/
def addUniq (l : List Nat) (x : Nat) : List Nat :=
  if x ∈ l then l else l ++ [x]

/-- `Signal.get()`: return the value and, when a computation is running
(top of the tracking stack), register the bidirectional edge —
`subscriptions.add(running)` and `running.dependencies.add(subscriptions)`. -/
def getSignal (w : World) (i : Nat) : World × Option Int :=
  match w.ctx.getLast? with
  | some r =>
      let w1 := w.modifyNode i (fun n => { n with subsC := addUniq n.subsC r })
      let w2 := w1.modifyNode r (fun n => { n with deps := addUniq n.deps i })
      (w2, (w2.node i).value)
  | none => (w, (w.node i).value)

/-- Addition over possibly-`undefined` values (`undefined + x` is `NaN`
in JavaScript; `NaN` is conflated with `undefined` here). -/
def optAdd : Option Int → Option Int → Option Int
  | some a, some b => some (a + b)
  | _, _ => none

/-- JavaScript truthiness of a reactive value: `0`, `NaN` and
`undefined` are falsy. -/
def optTruthy : Option Int → Bool
  | some v => v != 0
  | none => false

/-- Evaluate a tracked function: threads the world (each `read`
performs `getSignal`), and returns the value together with the trace of
node indices on which `get()` was invoked, in call order. -/
def evalExpr (w : World) : Expr → World × Option Int × List Nat
  | .lit n => (w, some n, [])
  | .read i =>
      let r := getSignal w i
      (r.1, r.2, [i])
  | .add a b =>
      let ra := evalExpr w a
      let rb := evalExpr ra.1 b
      (rb.1, optAdd ra.2.1 rb.2.1, ra.2.2 ++ rb.2.2)
  | .cond c t e =>
      let rc := evalExpr w c
      if optTruthy rc.2.1 then
        let rt := evalExpr rc.1 t
        (rt.1, rt.2.1, rc.2.2 ++ rt.2.2)
      else
        let re := evalExpr rc.1 e
        (re.1, re.2.1, rc.2.2 ++ re.2.2)

/-- The value an expression evaluates to, as a function of the node
values only (evaluation never changes any value, so this is the value
`evalExpr` returns). -/
def evalVal (vals : Nat → Option Int) : Expr → Option Int
  | .lit n => some n
  | .read i => vals i
  | .add a b => optAdd (evalVal vals a) (evalVal vals b)
  | .cond c t e =>
      if optTruthy (evalVal vals c) then evalVal vals t else evalVal vals e

/-- The trace of `get()` calls an expression performs, as a function of
the node values only. -/
def evalReads (vals : Nat → Option Int) : Expr → List Nat
  | .lit _ => []
  | .read i => [i]
  | .add a b => evalReads vals a ++ evalReads vals b
  | .cond c t e =>
      evalReads vals c ++
        (if optTruthy (evalVal vals c) then evalReads vals t
         else evalReads vals e)

/-- `cleanup(running)` (the module-level helper): remove `running` from
every subscription set in its `dependencies`, then clear
`dependencies`. -/
def cleanupComp (w : World) (c : Nat) : World :=
  let w1 := (w.node c).deps.foldl
    (fun w d => w.modifyNode d (fun n => { n with subsC := n.subsC.filter (· ≠ c) })) w
  w1.modifyNode c (fun n => { n with deps := [] })

mutual

/-- `Signal.set(nextValue)`: no-op when `Object.is`-equal, otherwise
store the value, send a `stale(1, true)` then a `stale(-1, true)` pulse
to the (computation) subscribers, and schedule the deferred
`setImmediate` delivery to plain-callback subscribers. -/
def setValue : Nat → World → Nat → Option Int → Option World
  | 0, _, _, _ => none
  | fuel + 1, w, i, v =>
      if (w.node i).value = v then some w
      else
        let w1 := w.modifyNode i (fun n => { n with value := v })
        match sigStaleList fuel w1 ((w1.node i).subsC) 1 true with
        | none => none
        | some w2 =>
            match sigStaleList fuel w2 ((w2.node i).subsC) (-1) true with
            | none => none
            | some w3 => some { w3 with pendingFlush := w3.pendingFlush ++ [i] }

/-- The signal-level `stale` closure: deliver a pulse to each
computation subscriber in the given snapshot of the subscription set
(plain-callback subscribers are skipped by the `typeof` test in the
source and are therefore not in `subsC` at all).  Each delivery is
recorded in the ghost `staleLog`. -/
def sigStaleList : Nat → World → List Nat → Int → Bool → Option World
  | 0, _, _, _, _ => none
  | _ + 1, w, [], _, _ => some w
  | fuel + 1, w, s :: rest, ch, fr =>
      let w1 := { w with staleLog := w.staleLog ++ [(s, ch, fr)] }
      match compStale fuel w1 s ch fr with
      | none => none
      | some w2 => sigStaleList fuel w2 rest ch fr

/-- `Computation.stale(change, fresh)`, exactly as in the source:
ignore a spurious negative pulse; on the first positive pulse propagate
`stale(1, false)` transitively; accumulate `waiting` and `fresh`; when
`waiting` returns to `0`, re-execute if anything was fresh, and close
out with `stale(-1, false)` to the subscribers. -/
def compStale : Nat → World → Nat → Int → Bool → Option World
  | 0, _, _, _, _ => none
  | fuel + 1, w, c, ch, fr =>
      let n := w.node c
      if n.waiting = 0 ∧ ch < 0 then some w
      else
        match (if n.waiting = 0 ∧ 0 < ch then
                 sigStaleList fuel w n.subsC 1 false
               else some w) with
        | none => none
        | some w1 =>
            let n1 := w1.node c
            let newWaiting := n1.waiting + ch
            let newFresh := n1.fresh || fr
            let w2 := w1.modifyNode c
              (fun m => { m with waiting := newWaiting, fresh := newFresh })
            if newWaiting = 0 then
              match (if newFresh then execute fuel w2 c else some w2) with
              | none => none
              | some w3 => sigStaleList fuel w3 ((w3.node c).subsC) (-1) false
            else some w2

/-- `Computation.execute()`: clean the previous dependency edges, push
onto the tracking stack, reset `waiting`/`fresh`, evaluate `fn` (each
`read` auto-subscribing), store the result through the inherited
`set`, pop the stack.  `execCount`/`execLog` are ghost. -/
def execute : Nat → World → Nat → Option World
  | 0, _, _ => none
  | fuel + 1, w, c =>
      let w1 := cleanupComp w c
      let w2 := { w1 with ctx := w1.ctx ++ [c] }
      let w3 := w2.modifyNode c
        (fun n => { n with waiting := 0, fresh := false, execCount := n.execCount + 1 })
      let r := evalExpr w3 ((w3.node c).fn)
      let w4 := { r.1 with execLog := r.1.execLog ++ [(c, r.2.1)] }
      match setValue fuel w4 c r.2.1 with
      | none => none
      | some w5 => some { w5 with ctx := w5.ctx.dropLast }

end

/-- `createSignal(value)`: append a fresh plain signal node, returning
its index. -/
def createSignal (w : World) (v : Option Int) : World × Nat :=
  ({ w with nodes := w.nodes ++ [{ value := v }] }, w.nodes.length)

/-- `createComputation(fn)`: append a fresh computation node (spreading
a fresh signal with `value = undefined`) and immediately `execute()`
it. -/
def createComputation (fuel : Nat) (w : World) (fn : Expr) : Option (World × Nat) :=
  let c := w.nodes.length
  let w1 := { w with nodes := w.nodes ++ [{ isComp := true, fn := fn }] }
  match execute fuel w1 c with
  | none => none
  | some w2 => some (w2, c)

/-- `snapshot()`: the current value, without subscribing. -/
def snapshot (w : World) (i : Nat) : Option Int := (w.node i).value

/-- Run the queued `setImmediate` callbacks: for each signal in the
pending queue, deliver the signal's current value to each of its
plain-callback subscribers (ghost-logged). -/
def flushPending (w : World) : World :=
  let entries := w.pendingFlush.foldl
    (fun acc i => acc ++ (w.node i).subsF.map (fun f => (f, (w.node i).value))) []
  { w with pendingFlush := [], callbackLog := w.callbackLog ++ entries }

/-! ## The dependency diamond (claim C1)

Node 0 is the root signal `R` (value `0`), node 1 is `A = R + 1`,
node 2 is `B = R + R`, node 3 is `C = A + B`.  `buildDiamond`
constructs it through the public API (`createSignal`,
`createComputation`); `dw0` is the resulting world and
`diamondFinal x` the world after `R.set(x)`. -/

def buildDiamond : Option World := do
  let w0 := (createSignal {} (some 0)).1
  let p1 ← createComputation 12 w0 (Expr.add (.read 0) (.lit 1))
  let p2 ← createComputation 12 p1.1 (Expr.add (.read 0) (.read 0))
  let p3 ← createComputation 12 p2.1 (Expr.add (.read 1) (.read 2))
  return p3.1

def dw0 : World :=
  { nodes := [
      { value := some 0, subsC := [1, 2] },
      { value := some 1, subsC := [3], isComp := true,
        fn := Expr.add (.read 0) (.lit 1), deps := [0], execCount := 1 },
      { value := some 0, subsC := [3], isComp := true,
        fn := Expr.add (.read 0) (.read 0), deps := [0], execCount := 1 },
      { value := some 1, isComp := true,
        fn := Expr.add (.read 1) (.read 2), deps := [1, 2], execCount := 1 }],
    pendingFlush := [1, 2, 3],
    execLog := [(1, some 1), (2, some 0), (3, some 1)] }

def diamondFinal (x : Int) : World :=
  { nodes := [
      { value := some x, subsC := [1, 2] },
      { value := some (x + 1), subsC := [3], isComp := true,
        fn := Expr.add (.read 0) (.lit 1), deps := [0], execCount := 2 },
      { value := some (x + x), subsC := [3], isComp := true,
        fn := Expr.add (.read 0) (.read 0), deps := [0], execCount := 2 },
      { value := some (x + 1 + (x + x)), isComp := true,
        fn := Expr.add (.read 1) (.read 2), deps := [1, 2], execCount := 2 }],
    pendingFlush := [1, 2, 3, 1, 2, 3, 0],
    staleLog := [(1, 1, true), (3, 1, false), (2, 1, true), (3, 1, false),
                 (1, -1, true), (3, 1, true), (3, -1, true), (3, -1, false),
                 (2, -1, true), (3, 1, true), (3, -1, true), (3, -1, false)],
    execLog := [(1, some 1), (2, some 0), (3, some 1),
                (1, some (x + 1)), (2, some (x + x)), (3, some (x + 1 + (x + x)))] }

set_option maxHeartbeats 4000000 in
theorem buildDiamond_eq : buildDiamond = some dw0 := by
  simp [buildDiamond, createSignal, createComputation, dw0, setValue, sigStaleList,
    compStale, execute, cleanupComp, evalExpr, getSignal, optAdd, optTruthy,
    World.node, World.setNode, World.modifyNode, addUniq, Option.bind]

set_option maxHeartbeats 4000000 in
theorem diamond_run (x : Int) (hx : x ≠ 0) :
    setValue 40 dw0 0 (some x) = some (diamondFinal x) := by
  have h1 : ¬ ((0 : Int) = x) := Ne.symm hx
  have h2 : ¬ ((1 : Int) = x + 1) := by omega
  have h3 : ¬ ((0 : Int) = x + x) := by omega
  have h4 : ¬ ((1 : Int) = x + 1 + (x + x)) := by omega
  simp [dw0, diamondFinal, setValue, sigStaleList, compStale, execute, cleanupComp,
    evalExpr, getSignal, optAdd, optTruthy, World.node, World.setNode, World.modifyNode,
    addUniq, h1, h2, h3, h4]

/-- C1: in the dependency diamond built through the public API
(`C = A + B`, `A = R + 1`, `B = R + R`), a single `R.set(x)` that
changes `R`'s value makes `C`'s tracked function execute exactly once
(so at most once), and the ghost execution log shows that this single
execution happens after both `A` and `B` have recomputed and reads the
consistent pair of fresh values: `C` goes directly from
`f(A₀, B₀) = 1` to `f(A₁, B₁) = 3x + 1`, and is never produced from
`A` updated with `B` stale (which would be `x + 2`) or the converse. -/
theorem diamond_single_execution_glitch_free (x : Int) (hx : x ≠ 0) :
    buildDiamond = some dw0 ∧
    ∃ w1, setValue 40 dw0 0 (some x) = some w1 ∧
      (w1.node 3).execCount = (dw0.node 3).execCount + 1 ∧
      (w1.node 1).value = some (x + 1) ∧
      (w1.node 2).value = some (2 * x) ∧
      (w1.node 3).value = some (3 * x + 1) ∧
      w1.execLog = dw0.execLog ++
        [(1, some (x + 1)), (2, some (2 * x)), (3, some (3 * x + 1))] := by
  refine ⟨buildDiamond_eq, diamondFinal x, diamond_run x hx, ?_, ?_, ?_, ?_, ?_⟩ <;>
    simp [dw0, diamondFinal, World.node] <;> omega

/-- Witness for C1 at the concrete new value `x = 5`. -/
theorem diamond_single_execution_glitch_free_witness :
    buildDiamond = some dw0 ∧
    ∃ w1, setValue 40 dw0 0 (some 5) = some w1 ∧
      (w1.node 3).execCount = (dw0.node 3).execCount + 1 ∧
      (w1.node 1).value = some (5 + 1) ∧
      (w1.node 2).value = some (2 * 5) ∧
      (w1.node 3).value = some (3 * 5 + 1) ∧
      w1.execLog = dw0.execLog ++
        [(1, some (5 + 1)), (2, some (2 * 5)), (3, some (3 * 5 + 1))] :=
  diamond_single_execution_glitch_free 5 (by decide)

/-! ## Claim C2: `Signal.set` -/

/-- A signal (node 0, value `5`) with two computation subscribers
(nodes 1 and 2, consistent back-edges in `deps`) and one plain-callback
subscriber (callback id 10). -/
def c2World : World :=
  { nodes := [
      { value := some 5, subsC := [1, 2], subsF := [10] },
      { value := none, isComp := true, fn := Expr.lit 7, deps := [0], execCount := 1 },
      { value := none, isComp := true, fn := Expr.lit 7, deps := [0], execCount := 1 }] }

/-- The world after `set(9)` on `c2World`'s node 0: value stored,
pulses delivered (both subscribers re-executed, and since their `fn`
reads nothing they dropped their edge to node 0), delivery to callback
10 pending. -/
def c2Final : World :=
  { nodes := [
      { value := some 9, subsF := [10] },
      { value := some 7, isComp := true, fn := Expr.lit 7, execCount := 2 },
      { value := some 7, isComp := true, fn := Expr.lit 7, execCount := 2 }],
    pendingFlush := [1, 2, 0],
    staleLog := [(1, 1, true), (2, 1, true), (1, -1, true), (2, -1, true)],
    execLog := [(1, some 7), (2, some 7)] }

set_option maxHeartbeats 4000000 in
theorem c2_run : setValue 20 c2World 0 (some 9) = some c2Final := by
  simp [c2World, c2Final, setValue, sigStaleList, compStale, execute, cleanupComp,
    evalExpr, getSignal, optAdd, optTruthy, World.node, World.setNode,
    World.modifyNode, addUniq]

/-- C2: `Signal.set(v)` is a no-op (the world — value, logs, pending
queue — is returned unchanged) when `v` is `Object.is`-equal to the
current value; otherwise it stores `v`, delivers a `stale(+1, true)`
pulse followed by a `stale(-1, true)` pulse to every non-function
subscriber (and only to those), and the deferred flush then invokes
each plain-callback subscriber with the new value. -/
theorem signal_set_noop_or_two_pulse :
    (∀ (fuel : Nat) (w : World) (i : Nat) (v : Option Int),
        0 < fuel → (w.node i).value = v → setValue fuel w i v = some w) ∧
    (∃ w1, setValue 20 c2World 0 (some 9) = some w1 ∧
      (w1.node 0).value = some 9 ∧
      w1.staleLog = [(1, 1, true), (2, 1, true), (1, -1, true), (2, -1, true)] ∧
      (flushPending w1).callbackLog = [(10, some 9)]) := by
  constructor
  · intro fuel w i v hf hv
    match fuel with
    | f + 1 => simp [setValue, hv]
  · exact ⟨c2Final, c2_run, by simp [c2Final, World.node],
      by simp [c2Final], by simp [c2Final, flushPending, World.node]⟩

/-- Witness for C2: the no-op half applied at a concrete world
(`set(5)` on a signal holding `5`), combined with the concrete
two-pulse half. -/
theorem signal_set_noop_or_two_pulse_witness :
    setValue 20 c2World 0 (some 5) = some c2World ∧
    (∃ w1, setValue 20 c2World 0 (some 9) = some w1 ∧
      (w1.node 0).value = some 9 ∧
      w1.staleLog = [(1, 1, true), (2, 1, true), (1, -1, true), (2, -1, true)] ∧
      (flushPending w1).callbackLog = [(10, some 9)]) :=
  ⟨signal_set_noop_or_two_pulse.1 20 c2World 0 (some 5) (by decide) rfl,
   signal_set_noop_or_two_pulse.2⟩

/-! ## Dependency-tracking exactness (claims C3, C9) -/

def valsOf (w : World) : Nat → Option Int := fun i => (w.node i).value

theorem node_setNode (w : World) (i j : Nat) (n : Node) :
    (w.setNode i n).node j = if i = j ∧ i < w.nodes.length then n else w.node j := by
  simp only [World.node, World.setNode, List.getD_eq_getElem?_getD, List.getElem?_set]
  by_cases h : i = j
  · subst h
    by_cases h2 : i < w.nodes.length
    · simp [h2]
    · simp [h2, List.getElem?_eq_none (Nat.le_of_not_lt h2)]
  · simp [h]

theorem node_modifyNode (w : World) (i j : Nat) (f : Node → Node) :
    (w.modifyNode i f).node j = if i = j ∧ i < w.nodes.length then f (w.node i) else w.node j := by
  simp [World.modifyNode, node_setNode]

theorem length_modifyNode (w : World) (i : Nat) (f : Node → Node) :
    (w.modifyNode i f).nodes.length = w.nodes.length := by
  simp [World.modifyNode, World.setNode]

theorem ctx_modifyNode (w : World) (i : Nat) (f : Node → Node) :
    (w.modifyNode i f).ctx = w.ctx := rfl

/-- Everything except `subsC` and `deps` is unchanged. -/
def MiscEq (w w' : World) : Prop :=
  w'.ctx = w.ctx ∧ w'.nodes.length = w.nodes.length ∧
  w'.pendingFlush = w.pendingFlush ∧ w'.staleLog = w.staleLog ∧
  w'.execLog = w.execLog ∧ w'.callbackLog = w.callbackLog ∧
  ∀ j, (w'.node j).value = (w.node j).value ∧
       (w'.node j).subsF = (w.node j).subsF ∧
       (w'.node j).fn = (w.node j).fn ∧
       (w'.node j).waiting = (w.node j).waiting ∧
       (w'.node j).fresh = (w.node j).fresh ∧
       (w'.node j).isComp = (w.node j).isComp ∧
       (w'.node j).execCount = (w.node j).execCount

theorem MiscEq.refl (w : World) : MiscEq w w := by
  simp [MiscEq]

theorem MiscEq.trans {w1 w2 w3 : World} (a : MiscEq w1 w2) (b : MiscEq w2 w3) :
    MiscEq w1 w3 := by
  obtain ⟨a1, a2, a3, a4, a5, a6, a7⟩ := a
  obtain ⟨b1, b2, b3, b4, b5, b6, b7⟩ := b
  refine ⟨by rw [b1, a1], by rw [b2, a2], by rw [b3, a3], by rw [b4, a4],
    by rw [b5, a5], by rw [b6, a6], fun j => ?_⟩
  obtain ⟨c1, c2, c3, c4, c5, c6, c7⟩ := a7 j
  obtain ⟨d1, d2, d3, d4, d5, d6, d7⟩ := b7 j
  exact ⟨by rw [d1, c1], by rw [d2, c2], by rw [d3, c3], by rw [d4, c4],
    by rw [d5, c5], by rw [d6, c6], by rw [d7, c7]⟩

theorem MiscEq.vals {w w' : World} (h : MiscEq w w') : valsOf w' = valsOf w := by
  funext i
  exact (h.2.2.2.2.2.2 i).1

theorem misc_modifyNode_subsC (w : World) (i : Nat) (g : List Nat → List Nat) :
    MiscEq w (w.modifyNode i (fun n => { n with subsC := g n.subsC })) := by
  refine ⟨rfl, length_modifyNode .., rfl, rfl, rfl, rfl, fun j => ?_⟩
  rw [node_modifyNode]
  by_cases hij : i = j
  · subst hij
    by_cases hlen : i < w.nodes.length <;> simp [hlen]
  · simp [hij]

theorem misc_modifyNode_deps (w : World) (i : Nat) (g : List Nat → List Nat) :
    MiscEq w (w.modifyNode i (fun n => { n with deps := g n.deps })) := by
  refine ⟨rfl, length_modifyNode .., rfl, rfl, rfl, rfl, fun j => ?_⟩
  rw [node_modifyNode]
  by_cases hij : i = j
  · subst hij
    by_cases hlen : i < w.nodes.length <;> simp [hlen]
  · simp [hij]

theorem getSignal_misc (w : World) (i : Nat) : MiscEq w (getSignal w i).1 := by
  cases h : w.ctx.getLast? with
  | none =>
      simp only [getSignal, h]
      exact MiscEq.refl w
  | some r =>
      simp only [getSignal, h]
      exact (misc_modifyNode_subsC w i (fun l => addUniq l r)).trans
        (misc_modifyNode_deps _ r (fun l => addUniq l i))

theorem getSignal_val (w : World) (i : Nat) : (getSignal w i).2 = (w.node i).value := by
  cases h : w.ctx.getLast? with
  | none => simp only [getSignal, h]
  | some r =>
      simp only [getSignal, h]
      exact (((misc_modifyNode_subsC w i (fun l => addUniq l r)).trans
        (misc_modifyNode_deps _ r (fun l => addUniq l i))).2.2.2.2.2.2 i).1

theorem evalExpr_misc (e : Expr) (w : World) : MiscEq w (evalExpr w e).1 := by
  induction e generalizing w with
  | lit n => exact MiscEq.refl w
  | read i => exact getSignal_misc w i
  | add a b iha ihb =>
      exact (iha w).trans (ihb (evalExpr w a).1)
  | cond c t e ihc iht ihe =>
      simp only [evalExpr]
      by_cases h : optTruthy (evalExpr w c).2.1
      · simp only [h, if_true]
        exact (ihc w).trans (iht (evalExpr w c).1)
      · simp only [h, if_false]
        exact (ihc w).trans (ihe (evalExpr w c).1)

theorem evalExpr_val_trace (e : Expr) (w : World) :
    (evalExpr w e).2.1 = evalVal (valsOf w) e ∧
    (evalExpr w e).2.2 = evalReads (valsOf w) e := by
  induction e generalizing w with
  | lit n => exact ⟨rfl, rfl⟩
  | read i => exact ⟨getSignal_val w i, rfl⟩
  | add a b iha ihb =>
      have hv := (evalExpr_misc a w).vals
      constructor
      · simp only [evalExpr, evalVal, (iha w).1, (ihb (evalExpr w a).1).1, hv]
      · simp only [evalExpr, evalReads, (iha w).2, (ihb (evalExpr w a).1).2, hv]
  | cond c t e ihc iht ihe =>
      have hv := (evalExpr_misc c w).vals
      have hc := (ihc w).1
      by_cases h : optTruthy (evalExpr w c).2.1
      · have h2 : optTruthy (evalVal (valsOf w) c) = true := by rw [← hc]; exact h
        constructor
        · simp only [evalExpr, evalVal, h, if_true, h2, (iht (evalExpr w c).1).1, hv]
        · simp only [evalExpr, evalReads, h, if_true, h2, (ihc w).2, (iht (evalExpr w c).1).2, hv]
      · have h2 : optTruthy (evalVal (valsOf w) c) = false := by
          rw [← hc]; exact (Bool.not_eq_true _).mp h
        constructor
        · simp only [evalExpr, evalVal, h, if_false, h2, Bool.false_eq_true, (ihe (evalExpr w c).1).1, hv]
        · simp only [evalExpr, evalReads, h, if_false, h2, Bool.false_eq_true, (ihc w).2,
            (ihe (evalExpr w c).1).2, hv]

theorem mem_addUniq_self (l : List Nat) (x : Nat) : x ∈ addUniq l x := by
  unfold addUniq
  by_cases h : x ∈ l <;> simp [h]

theorem addUniq_idem (l : List Nat) (x : Nat) : addUniq (addUniq l x) x = addUniq l x := by
  unfold addUniq
  by_cases h : x ∈ l <;> simp [h]

theorem mem_addUniq (l : List Nat) (x y : Nat) : y ∈ addUniq l x ↔ y ∈ l ∨ y = x := by
  unfold addUniq
  by_cases h : x ∈ l
  · simp only [h, if_true]
    constructor
    · exact Or.inl
    · rintro (hy | rfl)
      · exact hy
      · exact h
  · simp [h]

theorem getSignal_subsC (w : World) (i c j : Nat) (h : w.ctx.getLast? = some c)
    (hj : j < w.nodes.length) :
    ((getSignal w i).1.node j).subsC =
      if j = i then addUniq ((w.node i).subsC) c else (w.node j).subsC := by
  simp only [getSignal, h]
  rw [node_modifyNode, node_modifyNode]
  by_cases hji : j = i
  · subst hji
    have hlen : j < w.nodes.length := hj
    by_cases hcj : c = j
    · subst hcj
      simp [hlen, length_modifyNode, node_modifyNode]
    · simp [hcj, hlen, length_modifyNode, node_modifyNode]
  · have h1 : ¬ (i = j ∧ i < w.nodes.length) := fun hh => hji (hh.1.symm)
    by_cases hcj : c = j
    · subst hcj
      simp [hji, h1, length_modifyNode, node_modifyNode, hj]
    · simp [hji, h1, hcj, length_modifyNode, node_modifyNode]

theorem getSignal_deps_self (w : World) (i c : Nat) (h : w.ctx.getLast? = some c)
    (hc : c < w.nodes.length) :
    ((getSignal w i).1.node c).deps = addUniq ((w.node c).deps) i := by
  simp only [getSignal, h]
  rw [node_modifyNode]
  simp only [length_modifyNode, hc, and_true, if_pos rfl]
  rw [node_modifyNode]
  by_cases hic : i = c
  · subst hic
    simp [hc]
  · simp [hic]

theorem getSignal_deps_other (w : World) (i c j : Nat) (h : w.ctx.getLast? = some c)
    (hj : j ≠ c) :
    ((getSignal w i).1.node j).deps = (w.node j).deps := by
  simp only [getSignal, h]
  rw [node_modifyNode]
  have hcj : ¬ c = j := fun hh => hj hh.symm
  simp only [hcj, false_and, if_false]
  rw [node_modifyNode]
  by_cases hij : i = j
  · subst hij
    by_cases hlen : i < w.nodes.length <;> simp [hlen]
  · simp [hij]

theorem evalExpr_subsC (e : Expr) (w : World) (c j : Nat) (h : w.ctx.getLast? = some c)
    (hj : j < w.nodes.length) :
    ((evalExpr w e).1.node j).subsC =
      if j ∈ evalReads (valsOf w) e then addUniq ((w.node j).subsC) c
      else (w.node j).subsC := by
  induction e generalizing w with
  | lit n => simp [evalExpr, evalReads]
  | read i =>
      simp only [evalExpr, evalReads, List.mem_singleton]
      rw [getSignal_subsC w i c j h hj]
      by_cases hji : j = i <;> simp [hji]
  | add a b iha ihb =>
      have hmisc := evalExpr_misc a w
      have hctx2 : (evalExpr w a).1.ctx.getLast? = some c := by rw [hmisc.1]; exact h
      have hj2 : j < (evalExpr w a).1.nodes.length := by rw [hmisc.2.1]; exact hj
      have hreads : evalReads (valsOf (evalExpr w a).1) b = evalReads (valsOf w) b := by
        rw [hmisc.vals]
      simp only [evalExpr, evalReads, List.mem_append]
      rw [ihb (evalExpr w a).1 hctx2 hj2, hreads, iha w h hj]
      by_cases ha : j ∈ evalReads (valsOf w) a
      · by_cases hb : j ∈ evalReads (valsOf w) b <;>
          simp [ha, hb, addUniq_idem]
      · by_cases hb : j ∈ evalReads (valsOf w) b <;> simp [ha, hb]
  | cond cc t e ihc iht ihe =>
      have hmisc := evalExpr_misc cc w
      have hctx2 : (evalExpr w cc).1.ctx.getLast? = some c := by rw [hmisc.1]; exact h
      have hj2 : j < (evalExpr w cc).1.nodes.length := by rw [hmisc.2.1]; exact hj
      have hcv := (evalExpr_val_trace cc w).1
      by_cases hb : optTruthy (evalExpr w cc).2.1
      · have h2 : optTruthy (evalVal (valsOf w) cc) = true := by rw [← hcv]; exact hb
        have hreads : evalReads (valsOf (evalExpr w cc).1) t = evalReads (valsOf w) t := by
          rw [hmisc.vals]
        simp only [evalExpr, evalReads, hb, if_true, h2, List.mem_append]
        rw [iht (evalExpr w cc).1 hctx2 hj2, hreads, ihc w h hj]
        by_cases ha : j ∈ evalReads (valsOf w) cc
        · by_cases ht : j ∈ evalReads (valsOf w) t <;>
            simp [ha, ht, addUniq_idem]
        · by_cases ht : j ∈ evalReads (valsOf w) t <;> simp [ha, ht]
      · have h2 : optTruthy (evalVal (valsOf w) cc) = false := by
          rw [← hcv]; exact (Bool.not_eq_true _).mp hb
        have hreads : evalReads (valsOf (evalExpr w cc).1) e = evalReads (valsOf w) e := by
          rw [hmisc.vals]
        simp only [evalExpr, evalReads, hb, if_false, h2, Bool.false_eq_true, List.mem_append]
        rw [ihe (evalExpr w cc).1 hctx2 hj2, hreads, ihc w h hj]
        by_cases ha : j ∈ evalReads (valsOf w) cc
        · by_cases ht : j ∈ evalReads (valsOf w) e <;>
            simp [ha, ht, addUniq_idem]
        · by_cases ht : j ∈ evalReads (valsOf w) e <;> simp [ha, ht]

theorem evalExpr_deps_self (e : Expr) (w : World) (c : Nat) (h : w.ctx.getLast? = some c)
    (hc : c < w.nodes.length) :
    ((evalExpr w e).1.node c).deps = (evalReads (valsOf w) e).foldl addUniq ((w.node c).deps) := by
  induction e generalizing w with
  | lit n => simp [evalExpr, evalReads]
  | read i =>
      simp only [evalExpr, evalReads, List.foldl_cons, List.foldl_nil]
      exact getSignal_deps_self w i c h hc
  | add a b iha ihb =>
      have hmisc := evalExpr_misc a w
      have hctx2 : (evalExpr w a).1.ctx.getLast? = some c := by rw [hmisc.1]; exact h
      have hc2 : c < (evalExpr w a).1.nodes.length := by rw [hmisc.2.1]; exact hc
      have hreads : evalReads (valsOf (evalExpr w a).1) b = evalReads (valsOf w) b := by
        rw [hmisc.vals]
      simp only [evalExpr, evalReads, List.foldl_append]
      rw [ihb (evalExpr w a).1 hctx2 hc2, hreads, iha w h hc]
  | cond cc t e ihc iht ihe =>
      have hmisc := evalExpr_misc cc w
      have hctx2 : (evalExpr w cc).1.ctx.getLast? = some c := by rw [hmisc.1]; exact h
      have hc2 : c < (evalExpr w cc).1.nodes.length := by rw [hmisc.2.1]; exact hc
      have hcv := (evalExpr_val_trace cc w).1
      by_cases hb : optTruthy (evalExpr w cc).2.1
      · have h2 : optTruthy (evalVal (valsOf w) cc) = true := by rw [← hcv]; exact hb
        have hreads : evalReads (valsOf (evalExpr w cc).1) t = evalReads (valsOf w) t := by
          rw [hmisc.vals]
        simp only [evalExpr, evalReads, hb, if_true, h2, List.foldl_append]
        rw [iht (evalExpr w cc).1 hctx2 hc2, hreads, ihc w h hc]
      · have h2 : optTruthy (evalVal (valsOf w) cc) = false := by
          rw [← hcv]; exact (Bool.not_eq_true _).mp hb
        have hreads : evalReads (valsOf (evalExpr w cc).1) e = evalReads (valsOf w) e := by
          rw [hmisc.vals]
        simp only [evalExpr, evalReads, hb, if_false, h2, Bool.false_eq_true, List.foldl_append]
        rw [ihe (evalExpr w cc).1 hctx2 hc2, hreads, ihc w h hc]

theorem node_out_of_range (w : World) (i : Nat) (h : ¬ i < w.nodes.length) : w.node i = {} := by
  simp [World.node, List.getD_eq_getElem?_getD, List.getElem?_eq_none (Nat.le_of_not_lt h)]

theorem foldRemove_subsC (c : Nat) (l : List Nat) (w : World) (j : Nat) :
    ((l.foldl (fun w d =>
        w.modifyNode d (fun n => { n with subsC := n.subsC.filter (· ≠ c) })) w).node j).subsC =
      if j ∈ l then ((w.node j).subsC).filter (· ≠ c) else (w.node j).subsC := by
  induction l generalizing w with
  | nil => simp
  | cons d rest ih =>
      simp only [List.foldl_cons, List.mem_cons]
      rw [ih]
      have hnode : ((w.modifyNode d
            (fun n => { n with subsC := n.subsC.filter (· ≠ c) })).node j).subsC =
          if j = d then ((w.node j).subsC).filter (· ≠ c) else (w.node j).subsC := by
        rw [node_modifyNode]
        by_cases hdj : d = j
        · subst hdj
          by_cases hlen : d < w.nodes.length
          · simp [hlen]
          · simp [hlen, node_out_of_range w d hlen]
        · have hjd : ¬ j = d := fun hh => hdj hh.symm
          simp [hdj, hjd]
      by_cases hjr : j ∈ rest
      · rw [if_pos hjr, if_pos (Or.inr hjr), hnode]
        by_cases hjd : j = d
        · rw [if_pos hjd, List.filter_filter]
          apply List.filter_congr
          intro a _
          exact Bool.and_self _
        · rw [if_neg hjd]
      · rw [if_neg hjr, hnode]
        by_cases hjd : j = d
        · rw [if_pos hjd, if_pos (Or.inl hjd)]
        · rw [if_neg hjd, if_neg (by simp [hjd, hjr])]

theorem foldRemove_misc (c : Nat) (l : List Nat) (w : World) :
    MiscEq w (l.foldl (fun w d =>
      w.modifyNode d (fun n => { n with subsC := n.subsC.filter (· ≠ c) })) w) := by
  induction l generalizing w with
  | nil => exact MiscEq.refl w
  | cons d rest ih =>
      exact (misc_modifyNode_subsC w d (fun s => s.filter (· ≠ c))).trans (ih _)

theorem foldRemove_deps (c : Nat) (l : List Nat) (w : World) (j : Nat) :
    ((l.foldl (fun w d =>
        w.modifyNode d (fun n => { n with subsC := n.subsC.filter (· ≠ c) })) w).node j).deps =
      (w.node j).deps := by
  induction l generalizing w with
  | nil => rfl
  | cons d rest ih =>
      simp only [List.foldl_cons]
      rw [ih, node_modifyNode]
      by_cases hdj : d = j
      · subst hdj
        by_cases hlen : d < w.nodes.length <;> simp [hlen]
      · simp [hdj]

theorem cleanupComp_misc (w : World) (c : Nat) : MiscEq w (cleanupComp w c) := by
  unfold cleanupComp
  exact (foldRemove_misc c ((w.node c).deps) w).trans (misc_modifyNode_deps _ c (fun _ => []))

theorem cleanupComp_deps_self (w : World) (c : Nat) (hc : c < w.nodes.length) :
    ((cleanupComp w c).node c).deps = [] := by
  unfold cleanupComp
  rw [node_modifyNode]
  have hlen := (foldRemove_misc c ((w.node c).deps) w).2.1
  rw [hlen]
  simp [hc]

theorem cleanupComp_deps_other (w : World) (c j : Nat) (hj : j ≠ c) :
    ((cleanupComp w c).node j).deps = (w.node j).deps := by
  unfold cleanupComp
  rw [node_modifyNode]
  have hcj : ¬ c = j := fun hh => hj hh.symm
  simp only [hcj, false_and, if_false]
  exact foldRemove_deps c _ w j

theorem cleanupComp_subsC (w : World) (c j : Nat) :
    ((cleanupComp w c).node j).subsC =
      if j ∈ (w.node c).deps then ((w.node j).subsC).filter (· ≠ c)
      else (w.node j).subsC := by
  unfold cleanupComp
  rw [node_modifyNode]
  have hfold := foldRemove_subsC c ((w.node c).deps) w j
  by_cases hcj : c = j ∧ c < (List.foldl (fun w d =>
      w.modifyNode d (fun n => { n with subsC := n.subsC.filter (· ≠ c) })) w
      ((w.node c).deps)).nodes.length
  · obtain ⟨hceq, hlt⟩ := hcj
    subst hceq
    rw [if_pos ⟨rfl, hlt⟩]
    simpa using hfold
  · rw [if_neg hcj]
    exact hfold

theorem cleanupComp_removes (w : World) (c : Nat)
    (h1 : ∀ n, c ∈ (w.node n).subsC → n ∈ (w.node c).deps) :
    ∀ n, c ∉ ((cleanupComp w c).node n).subsC := by
  intro n
  rw [cleanupComp_subsC]
  by_cases hn : n ∈ (w.node c).deps
  · simp [hn, List.mem_filter]
  · simp only [hn, if_false]
    intro hmem
    exact hn (h1 n hmem)

theorem sigStaleList_nil (fuel : Nat) (w : World) (ch : Int) (fr : Bool) (hf : 0 < fuel) :
    sigStaleList fuel w [] ch fr = some w := by
  match fuel, hf with
  | f + 1, _ => rfl

theorem execute_spec (fuel : Nat) (w : World) (c : Nat)
    (hf : 3 ≤ fuel)
    (hc : c < w.nodes.length)
    (h1 : ∀ n, n < w.nodes.length → c ∈ (w.node n).subsC → n ∈ (w.node c).deps)
    (h2 : (w.node c).subsC = [])
    (h3 : c ∉ evalReads (valsOf w) ((w.node c).fn)) :
    ∃ w1, execute fuel w c = some w1 ∧
      (w1.node c).deps = (evalReads (valsOf w) ((w.node c).fn)).foldl addUniq [] ∧
      (∀ n, n < w.nodes.length →
        (c ∈ (w1.node n).subsC ↔ n ∈ evalReads (valsOf w) ((w.node c).fn))) ∧
      (w1.node c).value = evalVal (valsOf w) ((w.node c).fn) ∧
      (w1.node c).execCount = (w.node c).execCount + 1 ∧
      (w1.node c).fn = (w.node c).fn ∧
      w1.ctx = w.ctx ∧
      w1.nodes.length = w.nodes.length ∧
      (∀ n, n ≠ c → (w1.node n).value = (w.node n).value) ∧
      w1.execLog = w.execLog ++ [(c, evalVal (valsOf w) ((w.node c).fn))] := by
  obtain ⟨f, rfl⟩ : ∃ f, fuel = f + 3 := ⟨fuel - 3, by omega⟩
  -- world after cleanup
  have hA := cleanupComp_misc w c
  have h1u : ∀ n, c ∈ (w.node n).subsC → n ∈ (w.node c).deps := by
    intro n hn
    by_cases hlen : n < w.nodes.length
    · exact h1 n hlen hn
    · rw [node_out_of_range w n hlen] at hn
      simp at hn
  have hAgone : ∀ n, c ∉ ((cleanupComp w c).node n).subsC := cleanupComp_removes w c h1u
  have hAdeps : ((cleanupComp w c).node c).deps = [] := cleanupComp_deps_self w c hc
  have hAsubsc : ((cleanupComp w c).node c).subsC = [] := by
    rw [cleanupComp_subsC, h2]
    by_cases hm : c ∈ (w.node c).deps <;> simp [hm]
  -- the body of execute, step by step
  set wA := cleanupComp w c with hwA
  set wB : World := { wA with ctx := wA.ctx ++ [c] } with hwB
  set wC : World := wB.modifyNode c
    (fun n => { n with waiting := 0, fresh := false, execCount := n.execCount + 1 }) with hwC
  have hlenA : wA.nodes.length = w.nodes.length := hA.2.1
  have hlenB : wB.nodes.length = w.nodes.length := hlenA
  have hlenC : wC.nodes.length = w.nodes.length := by
    rw [hwC, length_modifyNode]; exact hlenB
  have hCnode : ∀ j, wC.node j =
      if c = j ∧ c < w.nodes.length then
        { (wB.node c) with
            waiting := 0
            fresh := false
            execCount := (wB.node c).execCount + 1 }
      else wB.node j := by
    intro j
    rw [hwC, node_modifyNode, hlenB]
  have hBnode : ∀ j, wB.node j = wA.node j := fun _ => rfl
  have hvalsC : valsOf wC = valsOf w := by
    funext j
    show (wC.node j).value = (w.node j).value
    rw [hCnode j]
    by_cases hcj : c = j ∧ c < w.nodes.length
    · obtain ⟨rfl, _⟩ := hcj
      simp [hc]
      exact (hA.2.2.2.2.2.2 c).1
    · rw [if_neg hcj, hBnode]
      exact (hA.2.2.2.2.2.2 j).1
  have hCfn : (wC.node c).fn = (w.node c).fn := by
    rw [hCnode c, if_pos ⟨rfl, hc⟩]
    show (wB.node c).fn = (w.node c).fn
    rw [hBnode]
    exact (hA.2.2.2.2.2.2 c).2.2.1
  have hCctx : wC.ctx = w.ctx ++ [c] := by
    rw [hwC]
    show wB.ctx = w.ctx ++ [c]
    rw [hwB]
    show wA.ctx ++ [c] = w.ctx ++ [c]
    rw [hA.1]
  have hClast : wC.ctx.getLast? = some c := by
    rw [hCctx]
    simp
  have hCsubsc : (wC.node c).subsC = [] := by
    rw [hCnode c, if_pos ⟨rfl, hc⟩]
    show (wB.node c).subsC = []
    rw [hBnode]
    exact hAsubsc
  have hCsubs_other : ∀ n, c ∉ (wC.node n).subsC := by
    intro n
    rw [hCnode n]
    by_cases hcj : c = n ∧ c < w.nodes.length
    · obtain ⟨rfl, _⟩ := hcj
      simp [hc]
      show c ∉ (wB.node c).subsC
      rw [hBnode]
      exact hAgone c
    · rw [if_neg hcj, hBnode]
      exact hAgone n
  have hCdeps : (wC.node c).deps = [] := by
    rw [hCnode c, if_pos ⟨rfl, hc⟩]
    show (wB.node c).deps = []
    rw [hBnode]
    exact hAdeps
  have hCexecC : (wC.node c).execCount = (w.node c).execCount + 1 := by
    rw [hCnode c, if_pos ⟨rfl, hc⟩]
    show (wB.node c).execCount + 1 = (w.node c).execCount + 1
    rw [hBnode]
    rw [(hA.2.2.2.2.2.2 c).2.2.2.2.2.2]
  -- the evaluation
  set r := evalExpr wC ((wC.node c).fn) with hrdef
  have hreads : evalReads (valsOf wC) ((wC.node c).fn) =
      evalReads (valsOf w) ((w.node c).fn) := by rw [hvalsC, hCfn]
  have hval : evalVal (valsOf wC) ((wC.node c).fn) =
      evalVal (valsOf w) ((w.node c).fn) := by rw [hvalsC, hCfn]
  have hrval : r.2.1 = evalVal (valsOf w) ((w.node c).fn) := by
    rw [hrdef, (evalExpr_val_trace _ wC).1, hval]
  have hrmisc := evalExpr_misc ((wC.node c).fn) wC
  have hrlen : r.1.nodes.length = w.nodes.length := by
    rw [hrdef, hrmisc.2.1, hlenC]
  have hrsubs : ∀ j, j < w.nodes.length →
      (r.1.node j).subsC =
        if j ∈ evalReads (valsOf w) ((w.node c).fn) then addUniq ((wC.node j).subsC) c
        else (wC.node j).subsC := by
    intro j hj
    rw [hrdef, evalExpr_subsC _ wC c j hClast (by rw [hlenC]; exact hj), hreads]
  have hrdeps : (r.1.node c).deps =
      (evalReads (valsOf w) ((w.node c).fn)).foldl addUniq [] := by
    rw [hrdef, evalExpr_deps_self _ wC c hClast (by rw [hlenC]; exact hc), hreads, hCdeps]
  have hrsubsc_c : (r.1.node c).subsC = [] := by
    rw [hrsubs c hc, if_neg h3, hCsubsc]
  have hrvals : ∀ j, (r.1.node j).value = (wC.node j).value :=
    fun j => (hrmisc.2.2.2.2.2.2 j).1
  have hrfn : (r.1.node c).fn = (w.node c).fn := by
    rw [(hrmisc.2.2.2.2.2.2 c).2.2.1, hCfn]
  have hrexecC : (r.1.node c).execCount = (w.node c).execCount + 1 := by
    rw [(hrmisc.2.2.2.2.2.2 c).2.2.2.2.2.2, hCexecC]
  have hrctx : r.1.ctx = w.ctx ++ [c] := by
    rw [hrmisc.1, hCctx]
  have hrlog : r.1.execLog = w.execLog := by
    rw [hrmisc.2.2.2.2.1]
    show wC.execLog = w.execLog
    rw [hwC]
    show wB.execLog = w.execLog
    rw [hwB]
    show wA.execLog = w.execLog
    exact hA.2.2.2.2.1
  -- the world passed to setValue
  set wD : World := { r.1 with execLog := r.1.execLog ++ [(c, r.2.1)] } with hwD
  have hDnode : ∀ j, wD.node j = r.1.node j := fun _ => rfl
  -- unfold one layer of execute
  have hexec : execute (f + 3) w c =
      match setValue (f + 2) wD c r.2.1 with
      | none => none
      | some w5 => some { w5 with ctx := w5.ctx.dropLast } := by
    show execute (f + 2 + 1) w c = _
    rw [execute]
  -- evaluate setValue: the subscriber list of c is empty
  have hsubsD : (wD.node c).subsC = [] := hrsubsc_c
  have hset : ∃ wE, setValue (f + 2) wD c r.2.1 = some wE ∧
      (wE.node c).value = r.2.1 ∧
      (∀ j, (wE.node j).subsC = (wD.node j).subsC) ∧
      (∀ j, (wE.node j).deps = (wD.node j).deps) ∧
      (∀ j, j ≠ c → (wE.node j).value = (wD.node j).value) ∧
      (∀ j, (wE.node j).fn = (wD.node j).fn) ∧
      (∀ j, (wE.node j).execCount = (wD.node j).execCount) ∧
      wE.ctx = wD.ctx ∧
      wE.nodes.length = wD.nodes.length ∧
      wE.execLog = wD.execLog := by
    by_cases heq : (wD.node c).value = r.2.1
    · refine ⟨wD, ?_, heq, fun j => rfl, fun j => rfl, fun j _ => rfl, fun j => rfl,
        fun j => rfl, rfl, rfl, rfl⟩
      show setValue (f + 1 + 1) wD c r.2.1 = some wD
      rw [setValue]
      simp [heq]
    · set wD1 : World := wD.modifyNode c (fun n => { n with value := r.2.1 }) with hwD1
      have hD1node : ∀ j, wD1.node j =
          if c = j ∧ c < w.nodes.length then { wD.node c with value := r.2.1 }
          else wD.node j := by
        intro j
        rw [hwD1, node_modifyNode]
        have : wD.nodes.length = w.nodes.length := hrlen
        rw [this]
      have hD1subsc : (wD1.node c).subsC = [] := by
        rw [hD1node c, if_pos ⟨rfl, hc⟩]
        exact hsubsD
      refine ⟨{ wD1 with pendingFlush := wD1.pendingFlush ++ [c] }, ?_, ?_, ?_, ?_, ?_, ?_, ?_, rfl, ?_, rfl⟩
      · show setValue (f + 1 + 1) wD c r.2.1 = _
        rw [setValue]
        simp only [heq, if_neg heq]
        have hnil1 : sigStaleList (f + 1) wD1 ((wD1.node c).subsC) 1 true = some wD1 := by
          rw [hD1subsc]
          exact sigStaleList_nil _ _ _ _ (by omega)
        have hnil2 : sigStaleList (f + 1) wD1 ((wD1.node c).subsC) (-1) true = some wD1 := by
          rw [hD1subsc]
          exact sigStaleList_nil _ _ _ _ (by omega)
        rw [hwD1] at hnil1 hnil2
        simp only [hnil1, hnil2]
        rw [hwD1]
        simp
      · show (wD1.node c).value = r.2.1
        rw [hD1node c, if_pos ⟨rfl, hc⟩]
      · intro j
        show (wD1.node j).subsC = (wD.node j).subsC
        rw [hD1node j]
        by_cases hcj : c = j ∧ c < w.nodes.length
        · obtain ⟨rfl, _⟩ := hcj
          simp [hc]
        · rw [if_neg hcj]
      · intro j
        show (wD1.node j).deps = (wD.node j).deps
        rw [hD1node j]
        by_cases hcj : c = j ∧ c < w.nodes.length
        · obtain ⟨rfl, _⟩ := hcj
          simp [hc]
        · rw [if_neg hcj]
      · intro j hj
        show (wD1.node j).value = (wD.node j).value
        rw [hD1node j]
        have : ¬ (c = j ∧ c < w.nodes.length) := fun hh => hj hh.1.symm
        rw [if_neg this]
      · intro j
        show (wD1.node j).fn = (wD.node j).fn
        rw [hD1node j]
        by_cases hcj : c = j ∧ c < w.nodes.length
        · obtain ⟨rfl, _⟩ := hcj
          simp [hc]
        · rw [if_neg hcj]
      · intro j
        show (wD1.node j).execCount = (wD.node j).execCount
        rw [hD1node j]
        by_cases hcj : c = j ∧ c < w.nodes.length
        · obtain ⟨rfl, _⟩ := hcj
          simp [hc]
        · rw [if_neg hcj]
      · show wD1.nodes.length = wD.nodes.length
        rw [hwD1, length_modifyNode]
  obtain ⟨wE, hsetE, hEval, hEsubs, hEdeps, hEvalother, hEfn, hEexec, hEctx, hElen, hElog⟩ := hset
  refine ⟨{ wE with ctx := wE.ctx.dropLast }, ?_, ?_, ?_, ?_, ?_, ?_, ?_, ?_, ?_, ?_⟩
  · rw [hexec, hsetE]
  · show (wE.node c).deps = _
    rw [hEdeps c, hDnode c, hrdeps]
  · intro n hn
    show c ∈ (wE.node n).subsC ↔ _
    rw [hEsubs n, hDnode n, hrsubs n hn]
    by_cases hm : n ∈ evalReads (valsOf w) ((w.node c).fn)
    · simp only [hm, if_pos hm, iff_true]
      exact mem_addUniq_self _ c
    · simp only [hm, if_neg hm, iff_false]
      exact hCsubs_other n
  · show (wE.node c).value = _
    rw [hEval, hrval]
  · show (wE.node c).execCount = _
    rw [hEexec c, hDnode c, hrexecC]
  · show (wE.node c).fn = _
    rw [hEfn c, hDnode c, hrfn]
  · show wE.ctx.dropLast = w.ctx
    rw [hEctx]
    show wD.ctx.dropLast = w.ctx
    rw [hwD]
    show r.1.ctx.dropLast = w.ctx
    rw [hrctx]
    exact List.dropLast_concat
  · show wE.nodes.length = w.nodes.length
    rw [hElen]
    show wD.nodes.length = w.nodes.length
    exact hrlen
  · intro n hn
    show (wE.node n).value = (w.node n).value
    rw [hEvalother n hn, hDnode n, hrvals n]
    show (wC.node n).value = (w.node n).value
    have := congrFun hvalsC n
    exact this
  · show wE.execLog = _
    rw [hElog]
    show wD.execLog = _
    rw [hwD]
    show r.1.execLog ++ [(c, r.2.1)] = _
    rw [hrlog, hrval]

theorem mem_foldl_addUniq (l : List Nat) (acc : List Nat) (x : Nat) :
    x ∈ l.foldl addUniq acc ↔ x ∈ acc ∨ x ∈ l := by
  induction l generalizing acc with
  | nil => simp
  | cons d rest ih =>
      simp only [List.foldl_cons, ih, mem_addUniq, List.mem_cons]
      tauto

theorem node_append (w : World) (nd : Node) (j : Nat) :
    ({ w with nodes := w.nodes ++ [nd] } : World).node j =
      if j = w.nodes.length then nd else w.node j := by
  by_cases h : j = w.nodes.length
  · subst h
    simp [World.node, List.getD_eq_getElem?_getD, List.getElem?_concat_length]
  · by_cases h2 : j < w.nodes.length
    · simp [World.node, List.getD_eq_getElem?_getD, List.getElem?_append, h2, h]
    · have h3 : (w.nodes ++ [nd]).length ≤ j := by
        simp only [List.length_append, List.length_cons, List.length_nil]
        omega
      have h4 : w.nodes.length ≤ j := by omega
      simp [World.node, List.getD_eq_getElem?_getD, List.getElem?_eq_none h3,
        List.getElem?_eq_none h4, h]

/-- C3: after `execute()` completes, a Computation's dependency set is
exactly the set of Signals whose `get()` ran during this (most recent)
execution of its tracked function: the edges from all earlier
executions are removed first (`cleanup`), and the tracking stack wires
every read bidirectionally — the computation `c` appears in a signal's
subscription set iff that signal was read, and a signal index appears
in `c`'s dependency set iff it was read.  Stated for a computation with
no computation subscribers of its own (so no downstream re-execution is
triggered inside this `execute`), with consistent incoming edges, and
whose function does not read `c` itself. -/
theorem computation_dependency_set_exact (fuel : Nat) (w : World) (c : Nat)
    (hf : 3 ≤ fuel) (hc : c < w.nodes.length)
    (h1 : ∀ n, n < w.nodes.length → c ∈ (w.node n).subsC → n ∈ (w.node c).deps)
    (h2 : (w.node c).subsC = [])
    (h3 : c ∉ evalReads (valsOf w) ((w.node c).fn)) :
    ∃ w1, execute fuel w c = some w1 ∧
      (w1.node c).deps = (evalReads (valsOf w) ((w.node c).fn)).foldl addUniq [] ∧
      (∀ n, n < w.nodes.length →
        (c ∈ (w1.node n).subsC ↔ n ∈ evalReads (valsOf w) ((w.node c).fn))) ∧
      (∀ n, (n ∈ (w1.node c).deps ↔ n ∈ evalReads (valsOf w) ((w.node c).fn))) := by
  obtain ⟨w1, hrun, hdeps, hsubs, _, _, _, _, _, _, _⟩ :=
    execute_spec fuel w c hf hc h1 h2 h3
  refine ⟨w1, hrun, hdeps, hsubs, fun n => ?_⟩
  rw [hdeps, mem_foldl_addUniq]
  simp

/-- A concrete world for the C3 witness: node 2 is a computation whose
previous execution read node 0 (edge `0 ↔ 2`), but whose function now
reads only node 1. -/
def c3World : World :=
  { nodes := [
      { value := some 4, subsC := [2] },
      { value := some 6 },
      { value := some 99, isComp := true, fn := Expr.read 1, deps := [0] }] }

/-- Witness for C3: after re-executing node 2 on `c3World`, the stale
edge to node 0 is gone and the only dependency is node 1. -/
theorem computation_dependency_set_exact_witness :
    ∃ w1, execute 10 c3World 2 = some w1 ∧
      (w1.node 2).deps = (evalReads (valsOf c3World) ((c3World.node 2).fn)).foldl addUniq [] ∧
      (∀ n, n < c3World.nodes.length →
        (2 ∈ (w1.node n).subsC ↔ n ∈ evalReads (valsOf c3World) ((c3World.node 2).fn))) ∧
      (∀ n, (n ∈ (w1.node 2).deps ↔ n ∈ evalReads (valsOf c3World) ((c3World.node 2).fn))) :=
  computation_dependency_set_exact 10 c3World 2 (by omega) (by decide)
    (by decide) (by decide) (by decide)

/-- C9: `createComputation(fn)` synchronously invokes `fn` exactly once
during creation, inside a tracking frame: the fresh computation's ghost
execution count is `1` and exactly one execution entry is appended; its
`snapshot()` immediately equals the value of that initial execution
(defined — not `undefined` — whenever the evaluation produces a value),
and the dependency edges to the signals `fn` read are already
established, bidirectionally, when `createComputation` returns. -/
theorem createComputation_executes_once (fuel : Nat) (w : World) (fn : Expr)
    (hf : 3 ≤ fuel)
    (hw : ∀ n, n < w.nodes.length → ∀ d, d ∈ (w.node n).subsC → d < w.nodes.length)
    (hr : ∀ i, i ∈ evalReads (valsOf w) fn → i < w.nodes.length) :
    ∃ w1, createComputation fuel w fn = some (w1, w.nodes.length) ∧
      (w1.node w.nodes.length).execCount = 1 ∧
      w1.execLog = w.execLog ++ [(w.nodes.length, evalVal (valsOf w) fn)] ∧
      snapshot w1 w.nodes.length = evalVal (valsOf w) fn ∧
      (∀ v0, evalVal (valsOf w) fn = some v0 → snapshot w1 w.nodes.length ≠ none) ∧
      (w1.node w.nodes.length).deps = (evalReads (valsOf w) fn).foldl addUniq [] ∧
      (∀ n, n < w.nodes.length →
        (w.nodes.length ∈ (w1.node n).subsC ↔ n ∈ evalReads (valsOf w) fn)) := by
  set c := w.nodes.length with hcdef
  set wP : World := { w with nodes := w.nodes ++ [{ isComp := true, fn := fn }] } with hwP
  have hPnode : ∀ j, wP.node j =
      if j = c then ({ isComp := true, fn := fn } : Node) else w.node j :=
    fun j => node_append w _ j
  have hPlen : wP.nodes.length = c + 1 := by
    rw [hwP]
    simp
  have hPvals : valsOf wP = valsOf w := by
    funext j
    show (wP.node j).value = (w.node j).value
    rw [hPnode j]
    by_cases hj : j = c
    · subst hj
      have hno : ¬ c < w.nodes.length := by omega
      rw [node_out_of_range w c hno]
      simp
    · rw [if_neg hj]
  have hPfn : (wP.node c).fn = fn := by
    rw [hPnode c, if_pos rfl]
  have hPreads : evalReads (valsOf wP) ((wP.node c).fn) = evalReads (valsOf w) fn := by
    rw [hPvals, hPfn]
  have hPval : evalVal (valsOf wP) ((wP.node c).fn) = evalVal (valsOf w) fn := by
    rw [hPvals, hPfn]
  have hPc : c < wP.nodes.length := by omega
  have hP1 : ∀ n, n < wP.nodes.length → c ∈ (wP.node n).subsC → n ∈ (wP.node c).deps := by
    intro n hn hmem
    rw [hPnode n] at hmem
    by_cases hnc : n = c
    · subst hnc
      rw [if_pos rfl] at hmem
      simp at hmem
    · rw [if_neg hnc] at hmem
      have hnlen : n < w.nodes.length := by
        rw [hPlen] at hn
        omega
      have := hw n hnlen c hmem
      omega
  have hP2 : (wP.node c).subsC = [] := by
    rw [hPnode c, if_pos rfl]
  have hP3 : c ∉ evalReads (valsOf wP) ((wP.node c).fn) := by
    rw [hPreads]
    intro hmem
    have := hr c hmem
    omega
  obtain ⟨w1, hrun, hdeps, hsubs, hval, hexecC, _, _, _, _, hlog⟩ :=
    execute_spec fuel wP c hf hPc hP1 hP2 hP3
  have hcreate : createComputation fuel w fn = some (w1, c) := by
    simp only [createComputation, ← hwP, ← hcdef]
    rw [hrun]
  have hPexec0 : (wP.node c).execCount = 0 := by
    rw [hPnode c, if_pos rfl]
  refine ⟨w1, hcreate, ?_, ?_, ?_, ?_, ?_, ?_⟩
  · rw [hexecC, hPexec0]
  · rw [hlog, hPval]
  · show (w1.node c).value = _
    rw [hval, hPval]
  · intro v0 hv0
    show (w1.node c).value ≠ none
    rw [hval, hPval, hv0]
    simp
  · rw [hdeps, hPreads]
  · intro n hn
    have hn2 : n < wP.nodes.length := by omega
    rw [hsubs n hn2, hPreads]

/-- Two plain signals for the C9 witness. -/
def c9World : World := { nodes := [{ value := some 3 }, { value := some 4 }] }

/-- Witness for C9: creating a computation reading both signals of
`c9World` executes once and wires both edges. -/
theorem createComputation_executes_once_witness :
    ∃ w1, createComputation 10 c9World (Expr.add (.read 0) (.read 1)) =
        some (w1, c9World.nodes.length) ∧
      (w1.node c9World.nodes.length).execCount = 1 ∧
      w1.execLog = c9World.execLog ++
        [(c9World.nodes.length, evalVal (valsOf c9World) (Expr.add (.read 0) (.read 1)))] ∧
      snapshot w1 c9World.nodes.length =
        evalVal (valsOf c9World) (Expr.add (.read 0) (.read 1)) ∧
      (∀ v0, evalVal (valsOf c9World) (Expr.add (.read 0) (.read 1)) = some v0 →
        snapshot w1 c9World.nodes.length ≠ none) ∧
      (w1.node c9World.nodes.length).deps =
        (evalReads (valsOf c9World) (Expr.add (.read 0) (.read 1))).foldl addUniq [] ∧
      (∀ n, n < c9World.nodes.length →
        (c9World.nodes.length ∈ (w1.node n).subsC ↔
          n ∈ evalReads (valsOf c9World) (Expr.add (.read 0) (.read 1)))) :=
  createComputation_executes_once 10 c9World (Expr.add (.read 0) (.read 1))
    (by omega) (by decide) (by decide)

/-! ## The cascade flattener (`flattenStyle` / `extractValue`)

Style values (`ExtractedStyleValue`) are numbers (ℚ), strings, runtime
expressions, arrays and plain objects; `undefined` is `Option` /
`ExtractResult.undef`.  The closures that `extractValue` installs as
lazy getters are defunctionalised as `FnDesc` (the captured data of
each closure in the source), with `applyFn` as their evaluation and
`forceResult` as the ubiquitous
`typeof x === "function" ? x() : x` pattern.  Because a variable
reference can capture another runtime expression, evaluating a getter
can recurse (and can diverge in JavaScript on cyclic variables);
`applyFn` therefore consumes fuel and returns `none` (= `undefined`)
when it runs out.  The condition evaluators (`conditions.ts`), the
specificity comparator (`specificity.ts`) and the ambient
`vh`/`vw`/`rem` signals (`misc.ts`, `rem.ts`) are not part of the
given sources and are modelled from the spec where noted.  Everything
lives in the `Interop` namespace (the source's `round` would otherwise
collide with Mathlib's). -/

namespace Interop

inductive RV where
  | num (q : ℚ)
  | str (s : String)
  | runtime (name : String) (args : List RV)
  | arr (items : List RV)
  | obj (fields : List (String × RV))

mutual
inductive ExtractResult where
  | undef
  | val (v : RV)
  | fnv (d : FnDesc)

inductive FnDesc where
  | varRef (captured : Option RV)
  | emFn (m : ℚ)
  | chFn (m : ℚ)
  | cwFn (m : ℚ)
  | generic (name : String) (wrap : Bool) (shouldParseFloat : Bool) (args : List ExtractResult)
end

/-- A property slot of the flattened style object: a directly defined
entry (static value or lazy getter), a nested sub-object (from a
dotted key such as `textShadow.width`), or the destructured transform
list. -/
inductive PropVal where
  | entry (e : ExtractResult)
  | sub (l : List (String × PropVal))
  | tlist (ts : List (List (String × ExtractResult)))

/-- `Number.EPSILON`. -/
def epsJS : ℚ := 1 / 2 ^ 52

/-- The `round` helper: `Math.round((number + Number.EPSILON) * 100) / 100`
(`Math.round x = ⌊x + 1/2⌋`). -/
def round (q : ℚ) : ℚ := ((Int.floor ((q + epsJS) * 100 + 1 / 2)) : ℚ) / 100

/-- JavaScript truthiness of an optional number (`0`, `NaN`,
`undefined` are falsy). -/
def qTruthy : Option ℚ → Bool
  | some q => q != 0
  | none => false

/-- `value.arguments[0] as number` (a non-numeric argument would be
`NaN` in JavaScript; not modelled). -/
def argNum : List RV → ℚ
  | .num q :: _ => q
  | _ => 0

/-- Decimal digits of a natural number string. -/
def digitsToNat (cs : List Char) : Nat :=
  cs.foldl (fun a c => a * 10 + (c.toNat - 48)) 0

/-- Whole-string decimal parse (`-?digits(.digits)?`).  Exponent
notation is not modelled.  Used only through the
`float.toString() === result` round-trip test, which makes it agree
with JavaScript's prefix-parsing `parseFloat` on that test. -/
def parseDecimal (s : String) : Option ℚ :=
  let cs := s.data
  let neg := cs.head? = some ('-')
  let cs1 := if neg then cs.tail else cs
  let ds := cs1.takeWhile (·.isDigit)
  let rest := cs1.dropWhile (·.isDigit)
  if ds.isEmpty then none
  else
    let ip : ℚ := (digitsToNat ds : ℚ)
    let signed : ℚ → ℚ := fun q => if neg then -q else q
    match rest with
    | [] => some (signed ip)
    | c :: fs =>
        if c = '.' ∧ ¬ fs.isEmpty ∧ fs.all (·.isDigit) then
          some (signed (ip + (digitsToNat fs : ℚ) / 10 ^ fs.length))
        else none

/-- Render `n / 10^k` (with `k ≥ 1`) in decimal notation. -/
def renderDecimal (n : Int) (k : Nat) : String :=
  let sign := if n < 0 then "-" else ""
  let a := n.natAbs
  let ip := a / 10 ^ k
  let fp := a % 10 ^ k
  let fs := toString fp
  let pad := String.mk (List.replicate (k - fs.length) ('0'))
  sign ++ toString ip ++ "." ++ pad ++ fs

/-- JavaScript number-to-string coercion, for the finite-decimal
rationals the modelled fragment produces (a non-decimal rational has
no float counterpart and is rendered as `num/den`). -/
def renderNum (q : ℚ) : String :=
  if q.den = 1 then toString q.num
  else
    match (List.range 21).find? (fun k => (q * 10 ^ k).den = 1) with
    | some k => renderDecimal (q * 10 ^ k).num k
    | none => toString q.num ++ "/" ++ toString q.den

/-- JavaScript string coercion inside the template literal /
`join(", ")` (objects render opaquely; not exercised by the claims). -/
def renderRV : RV → String
  | .num q => renderNum q
  | .str s => s
  | .runtime _ _ => "[object Object]"
  | .arr items =>
      String.intercalate (",") (items.attach.map (fun p => renderRV p.1))
  | .obj _ => "[object Object]"
termination_by v => sizeOf v
decreasing_by
  have := List.sizeOf_lt_of_mem p.2
  simp_wf
  omega

/-- The body of `valueFn` for the `joinArgs = true`, no-callback
option sets: map-force the arguments (already done by the caller),
drop `undefined`s, join with `", "`; empty join returns `undefined`;
optionally wrap as `name(...)`; `parseFloat` coerces a numeric string
that round-trips. -/
def valueFnEval (name : String) (wrap shouldParseFloat : Bool)
    (forced : List (Option RV)) : ExtractResult :=
  let vs := forced.filterMap id
  let s := String.intercalate (", ") (vs.map renderRV)
  if s = "" then .undef
  else
    let res := if wrap then name ++ "(" ++ s ++ ")" else s
    if shouldParseFloat then
      match parseDecimal res with
      | some q => if renderNum q = res then .val (.num q) else .val (.str res)
      | none => .val (.str res)
    else .val (.str res)

/-- `valueFn`'s result as an optional value (for the call-time path,
where `undefined` is `none`). -/
def valueFnEvalOpt (name : String) (wrap shouldParseFloat : Bool)
    (forced : List (Option RV)) : Option RV :=
  match valueFnEval name wrap shouldParseFloat forced with
  | .undef => none
  | .val v => some v
  | .fnv _ => none

structure FlattenOptions where
  ch : Option ℚ := none
  cw : Option ℚ := none

/-- The ambient environment signals (viewport and root font size).
Modelled from the spec: the `vh`/`vw` signals of `misc.ts` and the
`rem` signal of `rem.ts` are not under the given sources; per the
spec they are process-wide mutable cells read through tracked
`get()`. -/
structure EnvModel where
  viewportWidth : ℚ := 0
  viewportHeight : ℚ := 0
  remValue : ℚ := 14

/-- A container's runtime record (captured dimensions), for container
queries.  Modelled from the spec. -/
structure ContainerR where
  width : ℚ := 0
  height : ℚ := 0

/-- The reactive component context as `flattenStyle` sees it: the
current value behind each `context.variables[name]` signal (a missing
key reads as `undefined`), the container registry, and the
interaction signals — always present because
`createInteractionProxy` creates them on first access, with
`layoutWidth`/`layoutHeight` initialised to `0` and the pseudo-class
flags to `false`. -/
structure CtxModel where
  varValues : List (String × RV) := []
  containers : List (String × ContainerR) := []
  layoutWidth : ℚ := 0
  layoutHeight : ℚ := 0
  hover : Bool := false
  active : Bool := false
  focus : Bool := false

mutual

/-- `extractValue`, dispatching on the runtime expression's operator.
Non-runtime values are returned unchanged (`isRuntimeValue` fails).
The modelled operator set is `var`, the viewport/root units
`vh`/`vw`/`rem`, the element units `em`/`ch`/`cw`, the transform
helpers (via `createRuntimeFunction` with the source's option sets)
and the generic default; the platform-specific operators
(`platformSelect`, the pixel-ratio family, `platformColor`, `rgb`,
`hairlineWidth`) are outside the modelled fragment.  The whole family
recurses structurally on the fuel (the source recursion through
variable getters is unbounded and can diverge on cyclic variables);
exhausted fuel yields `undefined`, and every theorem supplies ample
fuel. -/
def extractValue : Nat → RV → List (String × PropVal) →
    Option (List (String × ExtractResult)) → CtxModel → EnvModel → FlattenOptions →
    ExtractResult
  | _, .num q, _, _, _, _, _ => .val (.num q)
  | _, .str s, _, _, _, _, _ => .val (.str s)
  | _, .arr items, _, _, _, _, _ => .val (.arr items)
  | _, .obj fields, _, _, _, _, _ => .val (.obj fields)
  | 0, .runtime _ _, _, _, _, _, _ => .undef
  | fuel + 1, .runtime name args, flatProps, metaVars, ctx, env, opts =>
      if name = "var" then
        let vname := match args.head? with
          | some (.str s) => s
          | _ => ""
        -- `flatStyleMeta.variables?.[name]` invokes the stored getter now …
        let metaHit : Option (Option RV) :=
          match metaVars with
          | none => none
          | some mv =>
              match mv.lookup vname with
              | none => none
              | some stored => some (forceResult fuel stored flatProps metaVars ctx env opts)
        -- … and `?? context.variables[name]` (a Signal, unwrapped via a
        -- tracked `get()`) is used when that is undefined.
        let captured : Option RV :=
          match metaHit with
          | some (some v) => some v
          | _ => ctx.varValues.lookup vname
        .fnv (.varRef captured)
      else if name = "vh" then
        .val (.num (round (env.viewportHeight / 100 * argNum args)))
      else if name = "vw" then
        .val (.num (round (env.viewportWidth / 100 * argNum args)))
      else if name = "rem" then
        .val (.num (round (env.remValue * argNum args)))
      else if name = "em" then
        .fnv (.emFn (argNum args))
      else if name = "ch" then
        -- `context.interaction?.layoutHeight` always exists (the
        -- interaction proxy creates it), so the `flatStyle.height`
        -- fallback branch is unreachable.
        let m := argNum args
        let reference : ℚ := if qTruthy opts.ch then opts.ch.getD 0 else ctx.layoutHeight
        if reference ≠ 0 then .val (.num (round (reference * m))) else .fnv (.chFn m)
      else if name = "cw" then
        let m := argNum args
        let reference : ℚ := if qTruthy opts.cw then opts.cw.getD 0 else ctx.layoutWidth
        if reference ≠ 0 then .val (.num (round (reference * m))) else .fnv (.cwFn m)
      else if name = "perspective" ∨ name = "translateX" ∨ name = "translateY" ∨
          name = "scaleX" ∨ name = "scaleY" ∨ name = "scale" then
        createRuntimeFunction fuel name args false true flatProps metaVars ctx env opts
      else if name = "rotate" ∨ name = "rotateX" ∨ name = "rotateY" ∨ name = "rotateZ" ∨
          name = "skewX" ∨ name = "skewY" then
        createRuntimeFunction fuel name args false false flatProps metaVars ctx env opts
      else
        createRuntimeFunction fuel name args true true flatProps metaVars ctx env opts

/-- `createRuntimeFunction` for the `joinArgs = true`, no-callback
option sets: extract every argument; when all are static, evaluate
`valueFn` eagerly, otherwise return the closure. -/
def createRuntimeFunction : Nat → String → List RV → Bool → Bool →
    List (String × PropVal) → Option (List (String × ExtractResult)) →
    CtxModel → EnvModel → FlattenOptions → ExtractResult
  | 0, _, _, _, _, _, _, _, _, _ => .undef
  | fuel + 1, name, args, wrap, shouldParseFloat, flatProps, metaVars, ctx, env, opts =>
      let eargs := extractArgs fuel args flatProps metaVars ctx env opts
      if eargs.any (fun a => match a with | .fnv _ => true | _ => false) then
        .fnv (.generic name wrap shouldParseFloat eargs)
      else
        valueFnEval name wrap shouldParseFloat
          (eargs.map (fun a => match a with | .val v => some v | _ => none))

def extractArgs : Nat → List RV → List (String × PropVal) →
    Option (List (String × ExtractResult)) → CtxModel → EnvModel → FlattenOptions →
    List ExtractResult
  | _, [], _, _, _, _, _ => []
  | 0, _ :: _, _, _, _, _, _ => []
  | fuel + 1, a :: rest, flatProps, metaVars, ctx, env, opts =>
      extractValue fuel a flatProps metaVars ctx env opts ::
        extractArgs fuel rest flatProps metaVars ctx env opts

/-- `typeof x === "function" ? x() : x`. -/
def forceResult : Nat → ExtractResult → List (String × PropVal) →
    Option (List (String × ExtractResult)) → CtxModel → EnvModel → FlattenOptions →
    Option RV
  | _, .undef, _, _, _, _, _ => none
  | _, .val v, _, _, _, _, _ => some v
  | 0, .fnv _, _, _, _, _, _ => none
  | fuel + 1, .fnv d, flatProps, metaVars, ctx, env, opts =>
      applyFn fuel d flatProps metaVars ctx env opts

def forceList : Nat → List ExtractResult → List (String × PropVal) →
    Option (List (String × ExtractResult)) → CtxModel → EnvModel → FlattenOptions →
    List (Option RV)
  | _, [], _, _, _, _, _ => []
  | 0, _ :: _, _, _, _, _, _ => []
  | fuel + 1, r :: rest, flatProps, metaVars, ctx, env, opts =>
      forceResult fuel r flatProps metaVars ctx env opts ::
        forceList fuel rest flatProps metaVars ctx env opts

/-- Read a property slot of the flattened style (`flatStyle.key`): an
installed getter is invoked, a nested object reads as an object. -/
def forcePropVal : Nat → PropVal → List (String × PropVal) →
    Option (List (String × ExtractResult)) → CtxModel → EnvModel → FlattenOptions →
    Option RV
  | _, .sub _, _, _, _, _, _ => some (.obj [])
  | _, .tlist _, _, _, _, _, _ => some (.arr [])
  | 0, .entry _, _, _, _, _, _ => none
  | fuel + 1, .entry e, flatProps, metaVars, ctx, env, opts =>
      forceResult fuel e flatProps metaVars ctx env opts

/-- Invoke an installed closure.  `flatProps` is the flattened style
object as it stands at call time (property reads can invoke other
getters). -/
def applyFn : Nat → FnDesc → List (String × PropVal) →
    Option (List (String × ExtractResult)) → CtxModel → EnvModel → FlattenOptions →
    Option RV
  | 0, _, _, _, _, _, _ => none
  | fuel + 1, d, flatProps, metaVars, ctx, env, opts =>
      match d with
      | .varRef captured =>
          -- the stored closure re-extracts the captured value with the
          -- call-time state, then forces a function-valued result
          match captured with
          | none => none
          | some v =>
              forceResult fuel (extractValue fuel v flatProps metaVars ctx env opts)
                flatProps metaVars ctx env opts
      | .emFn m =>
          -- `if ("fontSize" in flatStyle) return round((flatStyle.fontSize || 0) * m)`
          match flatProps.lookup ("fontSize") with
          | none => none
          | some pv =>
              match forcePropVal fuel pv flatProps metaVars ctx env opts with
              | some (.num q) => some (.num (round (q * m)))
              | some _ => none
              | none => some (.num (round (0 * m)))
      | .chFn m => some (.num (round (ctx.layoutHeight * m)))
      | .cwFn m => some (.num (round (ctx.layoutWidth * m)))
      | .generic name wrap shouldParseFloat args =>
          valueFnEvalOpt name wrap shouldParseFloat
            (forceList fuel args flatProps metaVars ctx env opts)

end

/-- `PseudoClassesQuery` (`hover?`, `active?`, `focus?`). -/
structure PseudoQ where
  hover : Option Bool := none
  active : Option Bool := none
  focus : Option Bool := none

/-- A media condition tree — boolean combinators over viewport
predicates.  Modelled from the spec: `conditions.ts` (the media-query
evaluator) is not under the given sources. -/
inductive MediaQ where
  | minWidth (q : ℚ)
  | maxWidth (q : ℚ)
  | minHeight (q : ℚ)
  | maxHeight (q : ℚ)
  | conj (a b : MediaQ)
  | disj (a b : MediaQ)
  | neg (m : MediaQ)

/-- Modelled from the spec: evaluate a media condition tree against
the ambient viewport signals; all conjuncts must pass. -/
def testMediaQuery (env : EnvModel) : MediaQ → Bool
  | .minWidth q => q ≤ env.viewportWidth
  | .maxWidth q => env.viewportWidth ≤ q
  | .minHeight q => q ≤ env.viewportHeight
  | .maxHeight q => env.viewportHeight ≤ q
  | .conj a b => testMediaQuery env a && testMediaQuery env b
  | .disj a b => testMediaQuery env a || testMediaQuery env b
  | .neg m => !(testMediaQuery env m)

/-- Modelled from the spec: each requested pseudo-class must have its
interaction signal `true`. -/
def testPseudoClasses (i : CtxModel) (q : PseudoQ) : Bool :=
  (!(q.hover.getD false) || i.hover) &&
  (!(q.active.getD false) || i.active) &&
  (!(q.focus.getD false) || i.focus)

/-- A container query: an optionally named container plus a condition
tree over the container's captured dimensions. -/
structure ContQ where
  name : Option String := none
  cond : MediaQ

/-- Modelled from the spec: evaluate the condition tree against the
container's captured dimensions (same combinator semantics as media
queries). -/
def testContainerCond (c : ContainerR) : MediaQ → Bool
  | .minWidth q => q ≤ c.width
  | .maxWidth q => c.width ≤ q
  | .minHeight q => q ≤ c.height
  | .maxHeight q => c.height ≤ q
  | .conj a b => testContainerCond c a && testContainerCond c b
  | .disj a b => testContainerCond c a || testContainerCond c b
  | .neg m => !(testContainerCond c m)

/-- Modelled from the spec: an absent query passes; otherwise resolve
the named (or default) container in the context's container map — if
absent, fail — and evaluate the condition tree against it. -/
def testContainerQuery (containers : List (String × ContainerR)) :
    Option (List ContQ) → Bool
  | none => true
  | some qs => qs.all fun cq =>
      match containers.lookup (cq.name.getD ("__default")) with
      | none => false
      | some c => testContainerCond c cq.cond

/-- The container descriptor of a style fragment
(`ExtractedContainer`, with `names?: string[] | false` — `none`
models both absent and `false`, which are falsy in the source's
checks). -/
structure FragContainer where
  names : Option (List String) := none
  ctype : Option String := none

/-- The accumulated container descriptor
(`flatStyleMeta.container ??= { type: "normal", names: [] }`). -/
structure ContainerMeta where
  names : List String := []
  ctype : String := "normal"

/-- A style fragment: the style object together with its `StyleMeta`
record (the fields `flattenStyle` consults). -/
structure Frag where
  pseudoClasses : Option PseudoQ := none
  media : Option (List MediaQ) := none
  containerQuery : Option (List ContQ) := none
  animations : Option (List (String × RV)) := none
  transition : Option (List (String × RV)) := none
  container : Option FragContainer := none
  requiresLayout : Bool := false
  vars : Option (List (String × RV)) := none
  props : List (String × RV) := []

/-- The accumulator's metadata record (`flatStyleMeta`).  `media` and
`containerQuery` exist in the `StyleMeta` type but `flattenStyle`
never writes them — they are carried to make that observable. -/
structure FlatMeta where
  pseudoClasses : Option PseudoQ := none
  animations : Option (List (String × RV)) := none
  transition : Option (List (String × RV)) := none
  container : Option ContainerMeta := none
  requiresLayout : Bool := false
  vars : Option (List (String × ExtractResult)) := none
  media : Option (List MediaQ) := none
  containerQuery : Option (List ContQ) := none

/-- The flatten accumulator: the style object plus its out-of-band
metadata record (`styleMetaMap`). -/
structure Acc where
  props : List (String × PropVal) := []
  meta : FlatMeta := {}

/-- JavaScript object spread `{...a, ...b}` on records modelled as
association lists: `a`'s keys first (with `b`'s value where both
define the key), then `b`'s remaining keys. -/
def jsSpread (a b : List (String × RV)) : List (String × RV) :=
  a.map (fun kv => (kv.1, ((b.lookup kv.1).getD kv.2))) ++
    b.filter (fun kv => (a.lookup kv.1).isNone)

/-- `{...styleMeta.pseudoClasses, ...flatStyleMeta.pseudoClasses}` —
per key, the accumulator's existing entry wins. -/
def mergePseudo (pNew : PseudoQ) (pOld : Option PseudoQ) : PseudoQ :=
  match pOld with
  | none => pNew
  | some po =>
      { hover := po.hover <|> pNew.hover,
        active := po.active <|> pNew.active,
        focus := po.focus <|> pNew.focus }

/-- Overwrite-or-append on the property bag (`Object.defineProperty`
redefines an existing key in place). -/
def upsert (l : List (String × PropVal)) (k : String) (v : PropVal) :
    List (String × PropVal) :=
  match l with
  | [] => [(k, v)]
  | (k2, v2) :: rest => if k2 = k then (k, v) :: rest else (k2, v2) :: upsert rest k v

/-- Walk the dot-separated key path, creating intermediate objects
(`target[token] ??= {}`), and define the final property. -/
def setPath (props : List (String × PropVal)) (tokens : List String)
    (e : ExtractResult) : List (String × PropVal) :=
  match tokens with
  | [] => props
  | [t] => upsert props t (.entry e)
  | t :: rest =>
      let target := match props.lookup t with
        | some (.sub l) => l
        | _ => []
      upsert props t (.sub (setPath target rest e))

/-- `key.split(".")`, over the character list (Lean's `String.splitOn`
does not reduce in the kernel). -/
def splitDots : List Char → List (List Char)
  | [] => [[]]
  | c :: rest =>
      let r := splitDots rest
      if c = ('.') then [] :: r
      else
        match r with
        | h :: t => (c :: h) :: t
        | [] => [[c]]

def splitKey (s : String) : List String :=
  (splitDots s.data).map (fun l => String.mk l)

/-- `extractAndDefineProperty`: resolve the value; `undefined` writes
nothing; otherwise install the (possibly lazy) property at the dotted
path. -/
def extractAndDefineProperty (fuel : Nat) (key : String) (value : RV)
    (props : List (String × PropVal)) (metaVars : Option (List (String × ExtractResult)))
    (ctx : CtxModel) (env : EnvModel) (opts : FlattenOptions) :
    List (String × PropVal) :=
  match extractValue fuel value props metaVars ctx env opts with
  | .undef => props
  | g => setPath props (splitKey key) g

/-- As `extractAndDefineProperty`, but for a possibly-missing value
(`value[0]` on a malformed pair is `undefined`, which `extractValue`
returns unchanged and the `undefined` guard then drops). -/
def extractAndDefinePropertyOpt (fuel : Nat) (key : String) (value : Option RV)
    (props : List (String × PropVal)) (metaVars : Option (List (String × ExtractResult)))
    (ctx : CtxModel) (env : EnvModel) (opts : FlattenOptions) :
    List (String × PropVal) :=
  match value with
  | none => props
  | some v => extractAndDefineProperty fuel key v props metaVars ctx env opts

/-- The fragment's condition gate (`START OF CONDITIONS CHECK`): true
iff one of the three evaluators rejects the fragment, in the source's
order — pseudo-classes, then media, then container query. -/
def condGateFails (ctx : CtxModel) (env : EnvModel) (frag : Frag) : Bool :=
  (match frag.pseudoClasses with
   | some pc => !(testPseudoClasses ctx pc)
   | none => false) ||
  (match frag.media with
   | some ms => !(ms.all (testMediaQuery env))
   | none => false) ||
  !(testContainerQuery ctx.containers frag.containerQuery)

/-- The non-property metadata merges of `flattenStyle` after the
conditions passed: animations and transition are spread with the
accumulator's entries winning; the container descriptor is
`??=`-initialised and then its `names`/`type` overwritten by the
fragment's; `requiresLayout` is set when the fragment requires it;
variables are folded skipping names already defined. -/
def mergeFragMeta (fuel : Nat) (ctx : CtxModel) (env : EnvModel) (opts : FlattenOptions)
    (accProps : List (String × PropVal)) (meta1 : FlatMeta) (frag : Frag) : FlatMeta :=
  let meta2 := match frag.animations with
    | some a => { meta1 with animations := some (jsSpread a (meta1.animations.getD [])) }
    | none => meta1
  let meta3 := match frag.transition with
    | some t => { meta2 with transition := some (jsSpread t (meta2.transition.getD [])) }
    | none => meta2
  let meta4 := match frag.container with
    | some fc =>
        let base := meta3.container.getD {}
        let base1 := match fc.names with
          | some ns => { base with names := ns }
          | none => base
        let base2 := match fc.ctype with
          | some t => { base1 with ctype := t }
          | none => base1
        { meta3 with container := some base2 }
    | none => meta3
  let meta5 := if frag.requiresLayout then { meta4 with requiresLayout := true } else meta4
  match frag.vars with
  | some vars =>
      let base := meta5.vars.getD []
      let folded := vars.foldl (fun cur kv =>
          if (cur.lookup kv.1).isSome then cur
          else cur ++ [(kv.1, extractValue fuel kv.2 accProps (some cur) ctx env opts)])
        base
      { meta5 with vars := some folded }
  | none => meta5

/-- The property loop of `flattenStyle`: each declared property, in
declaration order, is resolved and written over whatever a
lower-specificity fragment left (`transform`, `textShadow` and
`shadowOffset` are destructured into sub-keys). -/
def applyFragProps (fuel : Nat) (ctx : CtxModel) (env : EnvModel) (opts : FlattenOptions)
    (meta6 : FlatMeta) (props0 : List (String × PropVal))
    (fragProps : List (String × RV)) : List (String × PropVal) :=
  fragProps.foldl (fun ps kv =>
      let key := kv.1
      let value := kv.2
      if key = "transform" then
        match value with
        | .arr items =>
            let transforms := items.foldl (fun ts t =>
                match t with
                | .runtime tname targs =>
                    match extractValue fuel (.runtime tname targs) ps meta6.vars ctx env opts with
                    | .undef => ts
                    | .fnv d => ts ++ [[(tname, ExtractResult.fnv d)]]
                    | .val _ => ts
                | .obj fields =>
                    ts ++ fields.map (fun tkv =>
                      [(tkv.1, extractValue fuel tkv.2 ps meta6.vars ctx env opts)])
                | _ => ts) []
            upsert ps key (.tlist transforms)
        | _ => ps
      else if key = "textShadow" then
        match value with
        | .arr items =>
            let ps1 := extractAndDefinePropertyOpt fuel ("textShadow.width")
              (items.get? 0) ps meta6.vars ctx env opts
            extractAndDefinePropertyOpt fuel ("textShadow.height")
              (items.get? 1) ps1 meta6.vars ctx env opts
        | _ => ps
      else if key = "shadowOffset" then
        match value with
        | .arr items =>
            let ps1 := extractAndDefinePropertyOpt fuel ("shadowOffset.width")
              (items.get? 0) ps meta6.vars ctx env opts
            extractAndDefinePropertyOpt fuel ("shadowOffset.height")
              (items.get? 1) ps1 meta6.vars ctx env opts
        | _ => ps
      else
        extractAndDefineProperty fuel key value ps meta6.vars ctx env opts)
    props0

/-- One fragment of `flattenStyle` (the non-array branch): the
conditions check — pseudo-class metadata is merged *before* its test —
then, if all conditions pass, the metadata merges, the variables fold
and the property loop. -/
def flattenOne (fuel : Nat) (ctx : CtxModel) (env : EnvModel) (opts : FlattenOptions)
    (acc : Acc) (frag : Frag) : Acc :=
  -- START OF CONDITIONS CHECK
  let meta1 := match frag.pseudoClasses with
    | some pc => { acc.meta with pseudoClasses := some (mergePseudo pc acc.meta.pseudoClasses) }
    | none => acc.meta
  let acc1 : Acc := { acc with meta := meta1 }
  if condGateFails ctx env frag then acc1
  else
    -- END OF CONDITIONS CHECK
    let meta6 := mergeFragMeta fuel ctx env opts acc1.props meta1 frag
    { props := applyFragProps fuel ctx env opts meta6 acc1.props frag.props,
      meta := meta6 }

/-- `flattenStyle` over an already specificity-sorted fragment list
(the sort itself calls `styleSpecificityCompareFn` from
`specificity.ts`, outside the given sources): fold the fragments in
ascending-specificity order into the accumulator. -/
def flattenStyle (fuel : Nat) (ctx : CtxModel) (env : EnvModel) (opts : FlattenOptions)
    (frags : List Frag) (acc : Acc) : Acc :=
  frags.foldl (flattenOne fuel ctx env opts) acc

end Interop

namespace Interop

/-! ### Claim C4: condition gating -/

/-- A fragment with only a media condition (`min-width: 500`) that
fails under a 100-wide viewport, carrying properties and variables. -/
def c4Frag : Frag :=
  { media := some [MediaQ.minWidth 500]
    props := [(("width"), RV.num 10)]
    vars := some [(("--x"), RV.num 1)] }

def c4Env : EnvModel := { viewportWidth := 100, viewportHeight := 100 }

/-- Counterexample to C4 as stated: when the media evaluator fails,
the fragment is skipped *entirely* — the accumulator (including its
metadata record) is returned unchanged, so no metadata recording the
media condition is folded, although the fragment did carry one. -/
theorem failed_media_folds_no_metadata :
    flattenOne 10 {} c4Env {} {} c4Frag = ({} : Acc) ∧ c4Frag.media ≠ none := by
  constructor
  · rfl
  · simp [c4Frag]

/-- C4 (amended): when any of the three condition evaluators rejects a
fragment, none of its declared properties or variables are written
into the accumulator, and no metadata at all is folded for media or
container-query conditions; only pseudo-class metadata is folded —
because the source merges it *before* running the pseudo-class test —
so it survives a failure of any evaluator. -/
theorem flatten_condition_gating (fuel : Nat) (ctx : CtxModel) (env : EnvModel)
    (opts : FlattenOptions) (acc : Acc) (frag : Frag)
    (h : condGateFails ctx env frag = true) :
    flattenOne fuel ctx env opts acc frag =
      { acc with meta := (match frag.pseudoClasses with
          | some pc =>
              { acc.meta with pseudoClasses := some (mergePseudo pc acc.meta.pseudoClasses) }
          | none => acc.meta) } ∧
    (flattenOne fuel ctx env opts acc frag).props = acc.props ∧
    (flattenOne fuel ctx env opts acc frag).meta.vars = acc.meta.vars ∧
    (flattenOne fuel ctx env opts acc frag).meta.media = acc.meta.media ∧
    (flattenOne fuel ctx env opts acc frag).meta.containerQuery = acc.meta.containerQuery ∧
    (flattenOne fuel ctx env opts acc frag).meta.animations = acc.meta.animations ∧
    (flattenOne fuel ctx env opts acc frag).meta.transition = acc.meta.transition ∧
    (flattenOne fuel ctx env opts acc frag).meta.container = acc.meta.container ∧
    (flattenOne fuel ctx env opts acc frag).meta.requiresLayout = acc.meta.requiresLayout := by
  have key : flattenOne fuel ctx env opts acc frag =
      { acc with meta := (match frag.pseudoClasses with
          | some pc =>
              { acc.meta with pseudoClasses := some (mergePseudo pc acc.meta.pseudoClasses) }
          | none => acc.meta) } := by
    simp only [flattenOne, h, if_true]
  refine ⟨key, ?_, ?_, ?_, ?_, ?_, ?_, ?_, ?_⟩ <;>
    rw [key] <;> cases frag.pseudoClasses <;> rfl

/-- Witness for C4 (amended), at the concrete media-failing fragment:
the gate fails and nothing is folded. -/
theorem flatten_condition_gating_witness :
    flattenOne 10 {} c4Env {} ({} : Acc) c4Frag =
      { ({} : Acc) with meta := (match c4Frag.pseudoClasses with
          | some pc =>
              { ({} : Acc).meta with
                  pseudoClasses := some (mergePseudo pc ({} : Acc).meta.pseudoClasses) }
          | none => ({} : Acc).meta) } ∧
    (flattenOne 10 {} c4Env {} ({} : Acc) c4Frag).props = ({} : Acc).props ∧
    (flattenOne 10 {} c4Env {} ({} : Acc) c4Frag).meta.vars = ({} : Acc).meta.vars ∧
    (flattenOne 10 {} c4Env {} ({} : Acc) c4Frag).meta.media = ({} : Acc).meta.media ∧
    (flattenOne 10 {} c4Env {} ({} : Acc) c4Frag).meta.containerQuery =
      ({} : Acc).meta.containerQuery ∧
    (flattenOne 10 {} c4Env {} ({} : Acc) c4Frag).meta.animations = ({} : Acc).meta.animations ∧
    (flattenOne 10 {} c4Env {} ({} : Acc) c4Frag).meta.transition = ({} : Acc).meta.transition ∧
    (flattenOne 10 {} c4Env {} ({} : Acc) c4Frag).meta.container = ({} : Acc).meta.container ∧
    (flattenOne 10 {} c4Env {} ({} : Acc) c4Frag).meta.requiresLayout =
      ({} : Acc).meta.requiresLayout :=
  flatten_condition_gating 10 {} c4Env {} {} c4Frag (by rfl)

/-! ### Claim C5: metadata merge discipline -/

theorem lookup_mapFirst (a b : List (String × RV)) (k : String) :
    (a.map (fun kv => (kv.1, (b.lookup kv.1).getD kv.2))).lookup k =
      match a.lookup k with
      | some v => some ((b.lookup k).getD v)
      | none => none := by
  induction a with
  | nil => rfl
  | cons x a ih =>
      obtain ⟨k1, v1⟩ := x
      simp only [List.map_cons, List.lookup]
      cases hk : (k == k1) with
      | false => exact ih
      | true =>
          have hk2 : k = k1 := eq_of_beq hk
          subst hk2
          rfl

theorem lookup_filterAbsent (a b : List (String × RV)) (k : String) :
    (b.filter (fun kv => (a.lookup kv.1).isNone)).lookup k =
      if (a.lookup k).isNone then b.lookup k else none := by
  induction b with
  | nil => simp
  | cons x b ih =>
      obtain ⟨k1, v1⟩ := x
      simp only [List.filter_cons]
      cases hk : (k == k1) with
      | false =>
          cases ha : ((a.lookup k1).isNone : Bool) with
          | false =>
              simp only [ha, Bool.false_eq_true, if_false]
              rw [ih]
              simp only [List.lookup, hk]
          | true =>
              simp only [ha, if_true, List.lookup, hk]
              exact ih
      | true =>
          have hk2 : k = k1 := eq_of_beq hk
          subst hk2
          cases ha : ((a.lookup k).isNone : Bool) with
          | false =>
              simp only [ha, Bool.false_eq_true, if_false]
              rw [ih]
              simp [ha]
          | true =>
              simp only [ha, if_true, List.lookup, hk]

/-- Per-key semantics of `{...fragEntry, ...accEntry}`: the
accumulator's (first writer's) value wins; the fragment only fills
missing keys. -/
theorem lookup_jsSpread (a b : List (String × RV)) (k : String) :
    (jsSpread a b).lookup k = ((b.lookup k).or (a.lookup k)) := by
  unfold jsSpread
  rw [List.lookup_append, lookup_mapFirst, lookup_filterAbsent]
  cases ha : a.lookup k <;> cases hb : b.lookup k <;> simp [ha, hb]

theorem mergeFragMeta_animations (fuel : Nat) (ctx : CtxModel) (env : EnvModel)
    (opts : FlattenOptions) (ps : List (String × PropVal)) (m : FlatMeta) (frag : Frag) :
    (mergeFragMeta fuel ctx env opts ps m frag).animations =
      match frag.animations with
      | some a => some (jsSpread a (m.animations.getD []))
      | none => m.animations := by
  unfold mergeFragMeta
  cases frag.animations <;> cases frag.transition <;> cases frag.container <;>
    cases frag.requiresLayout <;> cases frag.vars <;> simp

theorem mergeFragMeta_transition (fuel : Nat) (ctx : CtxModel) (env : EnvModel)
    (opts : FlattenOptions) (ps : List (String × PropVal)) (m : FlatMeta) (frag : Frag) :
    (mergeFragMeta fuel ctx env opts ps m frag).transition =
      match frag.transition with
      | some t => some (jsSpread t (m.transition.getD []))
      | none => m.transition := by
  unfold mergeFragMeta
  cases frag.animations <;> cases frag.transition <;> cases frag.container <;>
    cases frag.requiresLayout <;> cases frag.vars <;> simp

theorem mergeFragMeta_requiresLayout (fuel : Nat) (ctx : CtxModel) (env : EnvModel)
    (opts : FlattenOptions) (ps : List (String × PropVal)) (m : FlatMeta) (frag : Frag) :
    (mergeFragMeta fuel ctx env opts ps m frag).requiresLayout =
      (m.requiresLayout || frag.requiresLayout) := by
  unfold mergeFragMeta
  cases frag.animations <;> cases frag.transition <;> cases frag.container <;>
    cases frag.requiresLayout <;> cases frag.vars <;> simp

theorem mergeFragMeta_container (fuel : Nat) (ctx : CtxModel) (env : EnvModel)
    (opts : FlattenOptions) (ps : List (String × PropVal)) (m : FlatMeta) (frag : Frag) :
    (mergeFragMeta fuel ctx env opts ps m frag).container =
      match frag.container with
      | some fc =>
          some { names := fc.names.getD (m.container.getD {}).names,
                 ctype := fc.ctype.getD (m.container.getD {}).ctype }
      | none => m.container := by
  unfold mergeFragMeta
  cases hc : frag.container with
  | none =>
      cases frag.animations <;> cases frag.transition <;>
        cases frag.requiresLayout <;> cases frag.vars <;> simp [hc]
  | some fc =>
      cases frag.animations <;> cases frag.transition <;>
        cases frag.requiresLayout <;> cases frag.vars <;>
          cases hn : fc.names <;> cases ht : fc.ctype <;> simp [hc, hn, ht]

/-- The variables fold only appends: a name already defined keeps its
stored (first) resolution. -/
theorem varsFold_preserves (fuel : Nat) (ctx : CtxModel) (env : EnvModel)
    (opts : FlattenOptions) (ps : List (String × PropVal))
    (vars : List (String × RV)) (base : List (String × ExtractResult)) (k : String)
    (h : (base.lookup k).isSome) :
    ((vars.foldl (fun cur kv =>
        if (cur.lookup kv.1).isSome then cur
        else cur ++ [(kv.1, extractValue fuel kv.2 ps (some cur) ctx env opts)]) base).lookup k) =
      base.lookup k := by
  induction vars generalizing base with
  | nil => rfl
  | cons x vars ih =>
      simp only [List.foldl_cons]
      by_cases hx : ((base.lookup x.1).isSome : Bool)
      · rw [if_pos hx]
        exact ih base h
      · rw [if_neg hx]
        have hlk : (base ++ [(x.1, extractValue fuel x.2 ps (some base) ctx env opts)]).lookup k =
            base.lookup k := by
          rw [List.lookup_append]
          cases hb : base.lookup k with
          | some v => rfl
          | none => rw [hb] at h; simp at h
        rw [ih _ (by rw [hlk]; exact h), hlk]

theorem mergeFragMeta_vars_preserves (fuel : Nat) (ctx : CtxModel) (env : EnvModel)
    (opts : FlattenOptions) (ps : List (String × PropVal)) (m : FlatMeta) (frag : Frag)
    (k : String) (h : ((m.vars.getD []).lookup k).isSome) :
    ((mergeFragMeta fuel ctx env opts ps m frag).vars.getD []).lookup k =
      (m.vars.getD []).lookup k := by
  unfold mergeFragMeta
  cases frag.animations <;> cases frag.transition <;> cases frag.container <;>
    cases frag.requiresLayout <;> cases hv : frag.vars <;>
      simp_all [varsFold_preserves fuel ctx env opts ps _ _ k h]

/-- The pseudo-class fold that `flattenStyle` performs before testing
the pseudo-class condition (factored from `flattenOne` for reuse). -/
def pseudoFold (m : FlatMeta) (frag : Frag) : FlatMeta :=
  match frag.pseudoClasses with
  | some pc => { m with pseudoClasses := some (mergePseudo pc m.pseudoClasses) }
  | none => m

theorem pseudoFold_fields (m : FlatMeta) (frag : Frag) :
    (pseudoFold m frag).animations = m.animations ∧
    (pseudoFold m frag).transition = m.transition ∧
    (pseudoFold m frag).container = m.container ∧
    (pseudoFold m frag).requiresLayout = m.requiresLayout ∧
    (pseudoFold m frag).vars = m.vars := by
  unfold pseudoFold
  cases frag.pseudoClasses <;> exact ⟨rfl, rfl, rfl, rfl, rfl⟩

/-- When every condition passes, one fragment's flatten step is the
pseudo-class fold, the metadata merges and the property loop. -/
theorem flattenOne_pass (fuel : Nat) (ctx : CtxModel) (env : EnvModel)
    (opts : FlattenOptions) (acc : Acc) (frag : Frag)
    (hgate : condGateFails ctx env frag = false) :
    flattenOne fuel ctx env opts acc frag =
      { props := applyFragProps fuel ctx env opts
          (mergeFragMeta fuel ctx env opts acc.props (pseudoFold acc.meta frag) frag)
          acc.props frag.props,
        meta := mergeFragMeta fuel ctx env opts acc.props (pseudoFold acc.meta frag) frag } := by
  simp only [flattenOne, pseudoFold, hgate, Bool.false_eq_true, if_false]

/-- Two fragments both naming their container, processed in ascending
specificity order. -/
def c5FragA : Frag := { container := some { names := some [("alpha")] } }

def c5FragB : Frag := { container := some { names := some [("beta")] } }

/-- Counterexample to C5 as stated: the container descriptor is not
merged first-writer-wins.  The later (higher-specificity) fragment's
container names *overwrite* the accumulator's: after flattening
`[c5FragA, c5FragB]` the recorded names are `["beta"]`, not the first
writer's `["alpha"]`. -/
theorem container_names_last_writer_wins :
    ((flattenStyle 10 {} {} {} [c5FragA, c5FragB] {}).meta.container.getD {}).names
        = [("beta")] ∧ ([("beta")] : List String) ≠ [("alpha")] := by
  constructor
  · rfl
  · simp

/-- C5: within one flatten pass (fragments in ascending specificity
order), with all conditions passing, the non-property metadata merges
are first-writer-wins per key for animations, transition and variables
(the accumulator's entry survives; a later fragment only fills missing
keys), and `requiresLayout` accumulates by disjunction — but the
container descriptor is the exception: a later fragment's container
`names`/`type` *overwrite* the accumulator's (last-writer-wins), which
corrects the claim's "first-writer-wins" for that field. -/
theorem metadata_merge_first_writer_except_container
    (fuel : Nat) (ctx : CtxModel) (env : EnvModel) (opts : FlattenOptions)
    (acc : Acc) (frag : Frag) (k : String)
    (hgate : condGateFails ctx env frag = false) :
    (∀ a, frag.animations = some a →
        ((flattenOne fuel ctx env opts acc frag).meta.animations.getD []).lookup k =
          ((acc.meta.animations.getD []).lookup k).or (a.lookup k)) ∧
    (frag.animations = none →
        (flattenOne fuel ctx env opts acc frag).meta.animations = acc.meta.animations) ∧
    (∀ t, frag.transition = some t →
        ((flattenOne fuel ctx env opts acc frag).meta.transition.getD []).lookup k =
          ((acc.meta.transition.getD []).lookup k).or (t.lookup k)) ∧
    (frag.transition = none →
        (flattenOne fuel ctx env opts acc frag).meta.transition = acc.meta.transition) ∧
    ((flattenOne fuel ctx env opts acc frag).meta.requiresLayout =
        (acc.meta.requiresLayout || frag.requiresLayout)) ∧
    (((acc.meta.vars.getD []).lookup k).isSome →
        ((flattenOne fuel ctx env opts acc frag).meta.vars.getD []).lookup k =
          (acc.meta.vars.getD []).lookup k) ∧
    (∀ fc ns, frag.container = some fc → fc.names = some ns →
        ((flattenOne fuel ctx env opts acc frag).meta.container.getD {}).names = ns) ∧
    (∀ fc t, frag.container = some fc → fc.ctype = some t →
        ((flattenOne fuel ctx env opts acc frag).meta.container.getD {}).ctype = t) := by
  have hflat := flattenOne_pass fuel ctx env opts acc frag hgate
  have hpf := pseudoFold_fields acc.meta frag
  refine ⟨?_, ?_, ?_, ?_, ?_, ?_, ?_, ?_⟩
  · intro a ha
    rw [hflat]
    show ((mergeFragMeta fuel ctx env opts acc.props (pseudoFold acc.meta frag)
        frag).animations.getD []).lookup k = _
    rw [mergeFragMeta_animations, ha, hpf.1]
    simp only [Option.getD_some]
    exact lookup_jsSpread a (acc.meta.animations.getD []) k
  · intro ha
    rw [hflat]
    show (mergeFragMeta fuel ctx env opts acc.props (pseudoFold acc.meta frag)
        frag).animations = _
    rw [mergeFragMeta_animations, ha, hpf.1]
  · intro t ht
    rw [hflat]
    show ((mergeFragMeta fuel ctx env opts acc.props (pseudoFold acc.meta frag)
        frag).transition.getD []).lookup k = _
    rw [mergeFragMeta_transition, ht, hpf.2.1]
    simp only [Option.getD_some]
    exact lookup_jsSpread t (acc.meta.transition.getD []) k
  · intro ht
    rw [hflat]
    show (mergeFragMeta fuel ctx env opts acc.props (pseudoFold acc.meta frag)
        frag).transition = _
    rw [mergeFragMeta_transition, ht, hpf.2.1]
  · rw [hflat]
    show (mergeFragMeta fuel ctx env opts acc.props (pseudoFold acc.meta frag)
        frag).requiresLayout = _
    rw [mergeFragMeta_requiresLayout, hpf.2.2.2.1]
  · intro h
    rw [hflat]
    show ((mergeFragMeta fuel ctx env opts acc.props (pseudoFold acc.meta frag)
        frag).vars.getD []).lookup k = _
    rw [mergeFragMeta_vars_preserves fuel ctx env opts acc.props (pseudoFold acc.meta frag)
        frag k (by rw [hpf.2.2.2.2]; exact h), hpf.2.2.2.2]
  · intro fc ns hc hn
    rw [hflat]
    show ((mergeFragMeta fuel ctx env opts acc.props (pseudoFold acc.meta frag)
        frag).container.getD {}).names = _
    rw [mergeFragMeta_container, hc]
    simp [hn]
  · intro fc t hc ht
    rw [hflat]
    show ((mergeFragMeta fuel ctx env opts acc.props (pseudoFold acc.meta frag)
        frag).container.getD {}).ctype = _
    rw [mergeFragMeta_container, hc]
    simp [ht]

/-- A concrete accumulator and gate-passing fragment exercising every
metadata field of the merge. -/
def c5Acc : Acc :=
  { meta := { animations := some [(("name"), RV.str ("bounce"))]
              transition := some [(("property"), RV.str ("opacity"))]
              container := some { names := [("alpha")] }
              vars := some [(("--x"), ExtractResult.val (RV.num 1))] } }

def c5FragC : Frag :=
  { animations := some [(("name"), RV.str ("spin")), (("duration"), RV.num 2)]
    transition := some [(("property"), RV.str ("color"))]
    container := some { names := some [("beta")], ctype := some ("size") }
    requiresLayout := true }

theorem metadata_merge_first_writer_except_container_witness :
    (∀ a, c5FragC.animations = some a →
        ((flattenOne 10 {} {} {} c5Acc c5FragC).meta.animations.getD []).lookup ("name") =
          ((c5Acc.meta.animations.getD []).lookup ("name")).or (a.lookup ("name"))) ∧
    (c5FragC.animations = none →
        (flattenOne 10 {} {} {} c5Acc c5FragC).meta.animations = c5Acc.meta.animations) ∧
    (∀ t, c5FragC.transition = some t →
        ((flattenOne 10 {} {} {} c5Acc c5FragC).meta.transition.getD []).lookup ("name") =
          ((c5Acc.meta.transition.getD []).lookup ("name")).or (t.lookup ("name"))) ∧
    (c5FragC.transition = none →
        (flattenOne 10 {} {} {} c5Acc c5FragC).meta.transition = c5Acc.meta.transition) ∧
    ((flattenOne 10 {} {} {} c5Acc c5FragC).meta.requiresLayout =
        (c5Acc.meta.requiresLayout || c5FragC.requiresLayout)) ∧
    (((c5Acc.meta.vars.getD []).lookup ("name")).isSome →
        ((flattenOne 10 {} {} {} c5Acc c5FragC).meta.vars.getD []).lookup ("name") =
          (c5Acc.meta.vars.getD []).lookup ("name")) ∧
    (∀ fc ns, c5FragC.container = some fc → fc.names = some ns →
        ((flattenOne 10 {} {} {} c5Acc c5FragC).meta.container.getD {}).names = ns) ∧
    (∀ fc t, c5FragC.container = some fc → fc.ctype = some t →
        ((flattenOne 10 {} {} {} c5Acc c5FragC).meta.container.getD {}).ctype = t) :=
  metadata_merge_first_writer_except_container 10 {} {} {} c5Acc c5FragC ("name") (by rfl)

/-! ### Claim C8: undefined omission -/

/-- A fragment whose only property is a `var()` reference to a
variable defined nowhere (no stored flatten variable, no context
variable). -/
def c8Frag : Frag :=
  { props := [(("color"), RV.runtime ("var") [RV.str ("--missing")])] }

/-- Counterexample to C8 as stated: a variable reference whose
looked-up value is undefined is *not* omitted.  `extractValue` on a
`var()` expression always returns a closure, so flattening `c8Frag`
writes a `color` property — an accessor that yields `undefined` when
invoked — although the variable is undefined everywhere. -/
theorem var_undefined_still_writes_property :
    (flattenOne 10 {} {} {} {} c8Frag).props.lookup ("color") =
        some (PropVal.entry (ExtractResult.fnv (FnDesc.varRef none))) ∧
    applyFn 10 (FnDesc.varRef none) [] none {} {} {} = none := ⟨rfl, rfl⟩

/-- C8 (amended): a runtime expression that resolves to `undefined` is
silently omitted — the property bag is returned unchanged, and the
resolver is a total function, so flattening cannot throw — with one
exception the claim misses: a `var()` expression never resolves to
`undefined` (it always yields an accessor closure), so a reference to
an undefined variable still writes a property. -/
theorem undefined_resolution_omits_property_except_var
    (fuel : Nat) (key : String) (value : RV) (props : List (String × PropVal))
    (mv : Option (List (String × ExtractResult))) (ctx : CtxModel) (env : EnvModel)
    (opts : FlattenOptions)
    (hundef : extractValue fuel value props mv ctx env opts = ExtractResult.undef) :
    extractAndDefineProperty fuel key value props mv ctx env opts = props ∧
    (∀ args, extractValue (fuel + 1) (RV.runtime ("var") args) props mv ctx env opts ≠
        ExtractResult.undef) := by
  constructor
  · unfold extractAndDefineProperty
    rw [hundef]
  · intro args h
    exact ExtractResult.noConfusion h

/-- Witness for C8 (amended): `translateX()` with no arguments joins
to the empty string and resolves to `undefined` — nothing is written —
while `var()` never resolves to `undefined`. -/
theorem undefined_resolution_omits_property_except_var_witness :
    extractAndDefineProperty 10 ("width") (RV.runtime ("translateX") []) [] none {} {} {} =
        [] ∧
    (∀ args, extractValue 11 (RV.runtime ("var") args) [] none {} {} {} ≠
        ExtractResult.undef) :=
  undefined_resolution_omits_property_except_var 10 ("width") (RV.runtime ("translateX") [])
    [] none {} {} {} (by rfl)

/-! ### Claim C7: the `cw` accessor -/

/-- A context after a layout event reporting width `200`. -/
def c7Ctx : CtxModel := { layoutWidth := 200 }

/-- Counterexample to C7 as stated: invoking the `cw(50)` accessor
after a layout event reporting width `200` yields
`round(200 * 50) = 10000`, not `100` — the source multiplies the
measured width by the raw argument, with no division by 100. -/
theorem cw_accessor_after_layout_not_hundred :
    applyFn 10 (FnDesc.cwFn 50) [] none c7Ctx {} {} = some (RV.num 10000) ∧
    some (RV.num (10000 : ℚ)) ≠ some (RV.num 100) := by
  constructor
  · show some (RV.num (round ((200 : ℚ) * 50))) = some (RV.num 10000)
    norm_num [round, epsJS]
  · intro h
    injection h with h1
    injection h1 with h2
    exact absurd h2 (by norm_num)

/-- C7 (amended): with no static width option, `cw(50)` resolves to a
zero-argument accessor rather than a value, and invoking the accessor
before any layout event (measured width still the initial `0`) yields
`0` — but after a layout event reporting width `200` it yields
`10000`, not `100`: the source computes `round(reference * multiplier)`
on the raw argument, so only `cw(1/2)` would yield `100`. -/
theorem cw_accessor_semantics (fuel : Nat) (props : List (String × PropVal))
    (mv : Option (List (String × ExtractResult))) (ctx ctx2 : CtxModel) (env : EnvModel)
    (h0 : ctx.layoutWidth = 0) (h200 : ctx2.layoutWidth = 200) :
    extractValue (fuel + 1) (RV.runtime ("cw") [RV.num 50]) props mv ctx env {} =
        ExtractResult.fnv (FnDesc.cwFn 50) ∧
    applyFn (fuel + 1) (FnDesc.cwFn 50) props mv ctx env {} = some (RV.num 0) ∧
    applyFn (fuel + 1) (FnDesc.cwFn 50) props mv ctx2 env {} = some (RV.num 10000) ∧
    applyFn (fuel + 1) (FnDesc.cwFn (1 / 2)) props mv ctx2 env {} = some (RV.num 100) := by
  refine ⟨?_, ?_, ?_, ?_⟩
  · show (if ctx.layoutWidth ≠ 0 then
        ExtractResult.val (RV.num (round (ctx.layoutWidth * 50)))
      else ExtractResult.fnv (FnDesc.cwFn 50)) = ExtractResult.fnv (FnDesc.cwFn 50)
    rw [h0]
    simp
  · show some (RV.num (round (ctx.layoutWidth * 50))) = some (RV.num 0)
    rw [h0]
    norm_num [round, epsJS]
  · show some (RV.num (round (ctx2.layoutWidth * 50))) = some (RV.num 10000)
    rw [h200]
    norm_num [round, epsJS]
  · show some (RV.num (round (ctx2.layoutWidth * (1 / 2)))) = some (RV.num 100)
    rw [h200]
    norm_num [round, epsJS]

/-- Witness for C7 (amended) at the initial context and the width-200
context. -/
theorem cw_accessor_semantics_witness :
    extractValue 10 (RV.runtime ("cw") [RV.num 50]) [] none {} {} {} =
        ExtractResult.fnv (FnDesc.cwFn 50) ∧
    applyFn 10 (FnDesc.cwFn 50) [] none {} {} {} = some (RV.num 0) ∧
    applyFn 10 (FnDesc.cwFn 50) [] none c7Ctx {} {} = some (RV.num 10000) ∧
    applyFn 10 (FnDesc.cwFn (1 / 2)) [] none c7Ctx {} {} = some (RV.num 100) :=
  cw_accessor_semantics 9 [] none {} c7Ctx {} (by rfl) (by rfl)

/-! ### Claim C10: rounding of unit conversions -/

/-- A value whose hundredfold sits just below a half-integer, closer
to it than `Number.EPSILON`. -/
def c10q : ℚ := (2 ^ 51 - 50) / (2 ^ 52 * 100)

/-- Counterexample to C10 as stated: `round` does not always return
the *nearest* hundredth.  On `c10q` the epsilon shift pushes the
value over the half-way point: `round c10q = 1/100`, yet the
hundredth `0` is strictly nearer to `c10q` than the returned
`1/100`. -/
theorem round_not_nearest_hundredth :
    round c10q = 1 / 100 ∧ c10q - 0 < 1 / 100 - c10q := by
  constructor <;> norm_num [round, epsJS, c10q]

/-- C10 (amended): every modelled unit conversion returns `round` of
its product — an integer multiple of `1/100` within `1/200 +
Number.EPSILON` of the true value (not always the *nearest*
hundredth, as `round_not_nearest_hundredth` shows) — eagerly for
`vh`/`vw`/`rem`, and inside the lazily returned accessors for
`ch`/`cw`/`em` (the `em` accessor reads `fontSize` from the flattened
style at call time). -/
theorem unit_conversions_round_to_hundredth
    (fuel : Nat) (q m n : ℚ) (rest props : List (String × PropVal))
    (mv : Option (List (String × ExtractResult)))
    (ctx : CtxModel) (env : EnvModel) (opts : FlattenOptions) :
    (∃ k : ℤ, round q = (k : ℚ) / 100 ∧ |round q - q| ≤ 1 / 200 + epsJS) ∧
    extractValue (fuel + 1) (RV.runtime ("vh") [RV.num n]) props mv ctx env opts =
        ExtractResult.val (RV.num (round (env.viewportHeight / 100 * n))) ∧
    extractValue (fuel + 1) (RV.runtime ("vw") [RV.num n]) props mv ctx env opts =
        ExtractResult.val (RV.num (round (env.viewportWidth / 100 * n))) ∧
    extractValue (fuel + 1) (RV.runtime ("rem") [RV.num n]) props mv ctx env opts =
        ExtractResult.val (RV.num (round (env.remValue * n))) ∧
    applyFn (fuel + 1) (FnDesc.chFn m) props mv ctx env opts =
        some (RV.num (round (ctx.layoutHeight * m))) ∧
    applyFn (fuel + 1) (FnDesc.cwFn m) props mv ctx env opts =
        some (RV.num (round (ctx.layoutWidth * m))) ∧
    applyFn (fuel + 3) (FnDesc.emFn m)
        ((("fontSize"), PropVal.entry (ExtractResult.val (RV.num q))) :: rest)
        mv ctx env opts =
        some (RV.num (round (q * m))) := by
  refine ⟨⟨Int.floor ((q + epsJS) * 100 + 1 / 2), rfl, ?_⟩, rfl, rfl, rfl, rfl, rfl, by rfl⟩
  have h1 := Int.floor_le ((q + epsJS) * 100 + 1 / 2)
  have h2 := Int.lt_floor_add_one ((q + epsJS) * 100 + 1 / 2)
  have he : (0 : ℚ) < epsJS := by norm_num [epsJS]
  have hr : round q = ((Int.floor ((q + epsJS) * 100 + 1 / 2) : ℚ)) / 100 := rfl
  rw [hr, abs_le]
  constructor <;> linarith

/-! ### Claim C6: the CSS variable fallback chain -/

/-- `createColorSchemeSignal`: a light and a dark value cell; `get()`
selects by the current color scheme (`colorScheme.get()`). -/
structure ColorSchemeSig where
  light : Option RV := none
  dark : Option RV := none

/-- `colorScheme.get() === "light" ? light.get() : dark.get()`. -/
def schemeGet (scheme : String) (s : ColorSchemeSig) : Option RV :=
  if scheme = ("light") then s.light else s.dark

/-- The `defaultVariables` proxy: a key never written reads as a
fresh (empty) color-scheme signal, which the proxy creates on first
access. -/
def defaultVarsGet (defaults : List (String × ColorSchemeSig)) (key : String) :
    ColorSchemeSig :=
  (defaults.lookup key).getD {}

/-- `createCSSVariableSignal`'s getter:
`signal.get() ?? defaultSignal.get() ?? parentSignal?.get()` — the
own cell first, then the *default scope*, then the parent context's
signal (the outer `none` of `parent` models a parent context without
that variable, where `parentSignal?.get()` is `undefined`). -/
def cssVariableGet (scheme : String) (own : Option RV)
    (defaults : List (String × ColorSchemeSig)) (key : String)
    (parent : Option (Option RV)) : Option RV :=
  own.or ((schemeGet scheme (defaultVarsGet defaults key)).or (parent.getD none))

/-- The default scope holding `--gap = 4`. -/
def c6Defaults : List (String × ColorSchemeSig) :=
  [(("--gap"), { light := some (RV.num 4) })]

/-- Counterexample to C6 as stated: with no local value, a parent
holding `--gap = 8` and the default scope holding `--gap = 4`, the
child reads `4`, not `8` — the getter consults the default scope
*before* the parent signal.  (A fresh child with no parent also reads
`4`, as the claim's second half says.) -/
theorem child_gap_reads_default_not_parent :
    cssVariableGet ("light") none c6Defaults ("--gap") (some (some (RV.num 8))) =
        some (RV.num 4) ∧
    cssVariableGet ("light") none c6Defaults ("--gap") none = some (RV.num 4) ∧
    some (RV.num (4 : ℚ)) ≠ some (RV.num 8) := by
  refine ⟨rfl, rfl, ?_⟩
  intro h
  injection h with h1
  injection h1 with h2
  exact absurd h2 (by norm_num)

/-- C6 (amended): with no local value set, the variable getter falls
back to the *default scope first* and only then to the parent: a
default-scope value shadows the parent's (so the claimed read of the
parent's `8` actually yields the default `4`); the parent's value is
read only when the default scope holds nothing; and a fresh child
with no parent reads exactly the default scope — all as chained live
reads of the current cells, not copied values. -/
theorem css_variable_fallback_default_before_parent
    (scheme key : String) (defaults : List (String × ColorSchemeSig))
    (parent : Option (Option RV)) :
    (∀ d, schemeGet scheme (defaultVarsGet defaults key) = some d →
        cssVariableGet scheme none defaults key parent = some d) ∧
    (∀ p, schemeGet scheme (defaultVarsGet defaults key) = none →
        cssVariableGet scheme none defaults key (some p) = p) ∧
    cssVariableGet scheme none defaults key none =
        schemeGet scheme (defaultVarsGet defaults key) := by
  refine ⟨?_, ?_, ?_⟩
  · intro d hd
    unfold cssVariableGet
    rw [hd]
    rfl
  · intro p hp
    unfold cssVariableGet
    rw [hp]
    rfl
  · unfold cssVariableGet
    cases schemeGet scheme (defaultVarsGet defaults key) <;> rfl

end Interop
